import Mathlib

/-!
Verification of the text-normalization and xAPI statement-building helpers in
`src/rag-stack/api/xAPI-n8n/xAPI-n8n-normalize.js`, together with a model of
the rule-based Turkish intent router described by the repository's README and
design specification (the router's Python sources are not part of this source
excerpt, so that part is modelled from the specification's words).

Text is modelled as `List Char`; a `Char` is a Unicode scalar value, matching
the code points of a JavaScript string.  A JS argument that may be
`null`/`undefined` is modelled as an `Option (List Char)`.
-/

namespace Codex

/-- Characters kept verbatim by the character class `[a-z0-9 ]` used in
`normalizeFull` (`.replace(/[^a-z0-9 ]/g, " ")`, xAPI-n8n-normalize.js line
73): the ASCII letters `a`–`z` (code points 97–122), the digits `0`–`9`
(48–57) and the space (32). -/
def keepChar (c : Char) : Bool :=
  (97 ≤ c.toNat && c.toNat ≤ 122) || (48 ≤ c.toNat && c.toNat ≤ 57) || (c.toNat == 32)

/-- One character of JavaScript `String.prototype.toLowerCase` (Unicode
default case conversion), restricted to the code points that can influence
the value of `normalizeFull`: ASCII `A`–`Z` (65–90), the uppercase Turkish
letters, the Kelvin sign `K` (U+212A, the only other code point whose
lowercase lands in ASCII), and the one-to-two special mapping
`İ` (U+0130) ↦ `i` followed by COMBINING DOT ABOVE (U+0307), from Unicode
`SpecialCasing.txt`.  Every other character is left unchanged: for any such
character both the character and its true lowercase image lie outside
`[a-z0-9 ]`, so the later step `.replace(/[^a-z0-9 ]/g, " ")` sends both to
`' '` and the restriction cannot change `normalizeFull`'s output. -/
def jsLowerChar (c : Char) : List Char :=
  if 65 ≤ c.toNat ∧ c.toNat ≤ 90 then [Char.ofNat (c.toNat + 32)]
  else if c = 'İ' then ['i', '̇']
  else if c = 'Ş' then ['ş']
  else if c = 'Ğ' then ['ğ']
  else if c = 'Ü' then ['ü']
  else if c = 'Ö' then ['ö']
  else if c = 'Ç' then ['ç']
  else if c = 'K' then ['k']
  else [c]

/-- JavaScript `String.prototype.toLowerCase` on a whole string. -/
def jsToLower (s : List Char) : List Char := s.flatMap jsLowerChar

/-- JavaScript `str.replace(/a/g, "b")` for one-character pattern and
replacement. -/
def replChar (a b : Char) (s : List Char) : List Char :=
  s.map (fun c => if c = a then b else c)

/-- The twelve chained Turkish-character replacements of `normalizeFull`
(xAPI-n8n-normalize.js lines 67–72), innermost applied first, in source
order: `ı→i`, `İ→i`, `ş→s`, `Ş→s`, `ğ→g`, `Ğ→g`, `ü→u`, `Ü→u`, `ö→o`,
`Ö→o`, `ç→c`, `Ç→c`. -/
def replaceTurkish (s : List Char) : List Char :=
  replChar 'Ç' 'c' (replChar 'ç' 'c' (replChar 'Ö' 'o' (replChar 'ö' 'o'
    (replChar 'Ü' 'u' (replChar 'ü' 'u' (replChar 'Ğ' 'g' (replChar 'ğ' 'g'
      (replChar 'Ş' 's' (replChar 'ş' 's' (replChar 'İ' 'i'
        (replChar 'ı' 'i' s)))))))))))

/-- The step `.replace(/[^a-z0-9 ]/g, " ")`: every character outside
`[a-z0-9 ]` becomes a single space. -/
def toSpaces (s : List Char) : List Char :=
  s.map (fun c => if keepChar c then c else ' ')

/-- Worker for `.replace(/\s+/g, " ")`: the flag records whether the
previously emitted character was a space.  At its call site the string
contains no whitespace other than `' '` (every other character was already
replaced by `' '`), so collapsing runs of `' '` is exactly the behaviour of
the regex. -/
def collapseAux : Bool → List Char → List Char
  | _, [] => []
  | prevSpace, c :: rest =>
    if c = ' ' then
      if prevSpace then collapseAux true rest else ' ' :: collapseAux true rest
    else c :: collapseAux false rest

/-- The step `.replace(/\s+/g, " ")` of `normalizeFull`. -/
def collapseSpaces (s : List Char) : List Char := collapseAux false s

/-- Left half of `String.prototype.trim`; at its call site the only
whitespace character that can occur is `' '`. -/
def trimLeft (s : List Char) : List Char := s.dropWhile (· = ' ')

/-- Right half of `String.prototype.trim`: removes every trailing `' '`. -/
def trimRight : List Char → List Char
  | [] => []
  | c :: rest =>
    match trimRight rest with
    | [] => if c = ' ' then [] else [c]
    | r => c :: r

/-- The final `.trim()` of `normalizeFull`. -/
def trimSpaces (s : List Char) : List Char := trimRight (trimLeft s)

/-- Model of `normalizeFull` (xAPI-n8n-normalize.js lines 63–76):

    function normalizeFull(text) {
      if (!text) return "";
      return String(text).toLowerCase()
        .replace(/ı/g,"i").replace(/İ/g,"i") ... .replace(/Ç/g,"c")
        .replace(/[^a-z0-9 ]/g, " ").replace(/\s+/g, " ").trim();
    }

`none` models a `null`/`undefined` argument (falsy, like the empty
string). -/
def normalizeFull (t : Option (List Char)) : List Char :=
  match t with
  | none => []
  | some s =>
    if s = [] then []
    else trimSpaces (collapseSpaces (toSpaces (replaceTurkish (jsToLower s))))

example : normalizeFull (some "  Ağır-Bakım  ÇOK!! ".data) = "agir bakim cok".data := by decide
example : normalizeFull (some "aİb".data) = "ai b".data := by decide
example : normalizeFull (some "café".data) = "caf".data := by decide
example : normalizeFull (some "İSTANBUL".data) = "i stanbul".data := by decide

/-- Normalized-output shape, part 1: no two consecutive spaces. -/
def noDouble : List Char → Bool
  | [] => true
  | [_] => true
  | a :: b :: rest => !(a == ' ' && b == ' ') && noDouble (b :: rest)

/-- Normalized-output shape, part 2: the first character, if any, is not a
space. -/
def headOK : List Char → Bool
  | [] => true
  | c :: _ => !(c == ' ')

/-- Normalized-output shape, part 3: the last character, if any, is not a
space. -/
def lastOK : List Char → Bool
  | [] => true
  | [c] => !(c == ' ')
  | _ :: b :: rest => lastOK (b :: rest)

lemma noDouble_tail {c : Char} {l : List Char} (h : noDouble (c :: l) = true) :
    noDouble l = true := by
  cases l with
  | nil => rfl
  | cons b t =>
    rw [noDouble, Bool.and_eq_true] at h
    exact h.2

lemma noDouble_cons_of_headOK {l : List Char} (h1 : headOK l = true)
    (h2 : noDouble l = true) : noDouble (' ' :: l) = true := by
  cases l with
  | nil => rfl
  | cons b t =>
    rw [headOK] at h1
    rw [noDouble, Bool.and_eq_true]
    refine ⟨?_, h2⟩
    simp only [Bool.not_eq_true', Bool.and_eq_false_iff]
    right
    simpa using h1

lemma noDouble_cons_nonspace {c : Char} {l : List Char} (hc : (c == ' ') = false)
    (h : noDouble l = true) : noDouble (c :: l) = true := by
  cases l with
  | nil => rfl
  | cons b t =>
    rw [noDouble, Bool.and_eq_true]
    exact ⟨by simp [hc], h⟩

lemma toSpaces_all (s : List Char) : (toSpaces s).all keepChar = true := by
  rw [toSpaces, List.all_map]
  refine List.all_eq_true.mpr fun c _ => ?_
  by_cases h : keepChar c = true
  · simp [h]
  · simp only [Function.comp_apply]
    rw [if_neg (by simpa using h)]
    decide

lemma collapseAux_all {p : Char → Bool} (hsp : p ' ' = true) :
    ∀ (b : Bool) (s : List Char), s.all p = true → (collapseAux b s).all p = true := by
  intro b s
  induction s generalizing b with
  | nil => intro _; rfl
  | cons c rest ih =>
    intro h
    rw [List.all_cons, Bool.and_eq_true] at h
    by_cases hc : c = ' '
    · subst hc
      cases b with
      | true => rw [collapseAux, if_pos rfl, if_pos rfl]; exact ih true h.2
      | false =>
        rw [collapseAux, if_pos rfl, if_neg (by simp), List.all_cons, Bool.and_eq_true]
        exact ⟨hsp, ih true h.2⟩
    · rw [collapseAux, if_neg hc, List.all_cons, Bool.and_eq_true]
      exact ⟨h.1, ih false h.2⟩

lemma collapseAux_shape : ∀ s : List Char,
    noDouble (collapseAux true s) = true ∧ headOK (collapseAux true s) = true ∧
    noDouble (collapseAux false s) = true := by
  intro s
  induction s with
  | nil => exact ⟨rfl, rfl, rfl⟩
  | cons c rest ih =>
    by_cases hc : c = ' '
    · subst hc
      refine ⟨by rw [collapseAux, if_pos rfl, if_pos rfl]; exact ih.1,
        by rw [collapseAux, if_pos rfl, if_pos rfl]; exact ih.2.1, ?_⟩
      rw [collapseAux, if_pos rfl, if_neg (by simp)]
      exact noDouble_cons_of_headOK ih.2.1 ih.1
    · have h1 : noDouble (c :: collapseAux false rest) = true :=
        noDouble_cons_nonspace (by simpa using hc) ih.2.2
      refine ⟨by simpa [collapseAux, if_neg hc] using h1, ?_, by simpa [collapseAux, if_neg hc] using h1⟩
      rw [collapseAux, if_neg hc, headOK]
      simpa using hc

lemma headOK_trimLeft (s : List Char) : headOK (trimLeft s) = true := by
  induction s with
  | nil => rfl
  | cons c rest ih =>
    by_cases hc : c = ' '
    · simpa [trimLeft, List.dropWhile_cons, hc] using ih
    · simp [trimLeft, List.dropWhile_cons, hc, headOK]

lemma trimLeft_all {p : Char → Bool} : ∀ s : List Char, s.all p = true →
    (trimLeft s).all p = true := by
  intro s
  induction s with
  | nil => intro _; rfl
  | cons c rest ih =>
    intro h
    rw [List.all_cons, Bool.and_eq_true] at h
    by_cases hc : c = ' '
    · rw [trimLeft, List.dropWhile_cons, if_pos (by simpa using hc)]
      exact ih h.2
    · rw [trimLeft, List.dropWhile_cons, if_neg (by simpa using hc), List.all_cons,
        Bool.and_eq_true]
      exact ⟨h.1, h.2⟩

lemma trimLeft_noDouble : ∀ s : List Char, noDouble s = true →
    noDouble (trimLeft s) = true := by
  intro s
  induction s with
  | nil => intro _; rfl
  | cons c rest ih =>
    intro h
    by_cases hc : c = ' '
    · simpa [trimLeft, List.dropWhile_cons, hc] using ih (noDouble_tail h)
    · simpa [trimLeft, List.dropWhile_cons, hc] using h

lemma trimRight_head : ∀ {s x : List Char} {c : Char}, trimRight s = c :: x →
    ∃ t, s = c :: t := by
  intro s
  induction s with
  | nil => intro x c h; exact absurd h (by simp [trimRight])
  | cons a rest ih =>
    intro x c h
    rw [trimRight] at h
    rcases hr : trimRight rest with _ | ⟨y, ys⟩
    · rw [hr] at h
      by_cases ha : a = ' '
      · rw [if_pos ha] at h; exact absurd h (by simp)
      · rw [if_neg ha] at h
        exact ⟨rest, by rw [← (List.cons.injEq ..).mp h |>.1]⟩
    · rw [hr] at h
      exact ⟨rest, by rw [← (List.cons.injEq ..).mp h |>.1]⟩

lemma lastOK_trimRight (s : List Char) : lastOK (trimRight s) = true := by
  induction s with
  | nil => rfl
  | cons c rest ih =>
    rw [trimRight]
    rcases hr : trimRight rest with _ | ⟨y, ys⟩
    · by_cases hc : c = ' '
      · rw [if_pos hc]; rfl
      · rw [if_neg hc, lastOK]
        simpa using hc
    · rw [lastOK]
      rw [hr] at ih
      exact ih

lemma trimRight_all {p : Char → Bool} : ∀ s : List Char, s.all p = true →
    (trimRight s).all p = true := by
  intro s
  induction s with
  | nil => intro _; rfl
  | cons c rest ih =>
    intro h
    rw [List.all_cons, Bool.and_eq_true] at h
    rw [trimRight]
    rcases hr : trimRight rest with _ | ⟨y, ys⟩
    · by_cases hc : c = ' '
      · rw [if_pos hc]; rfl
      · rw [if_neg hc, List.all_cons, Bool.and_eq_true]
        exact ⟨h.1, rfl⟩
    · rw [List.all_cons, Bool.and_eq_true]
      exact ⟨h.1, by rw [← hr]; exact ih h.2⟩

lemma trimRight_noDouble : ∀ s : List Char, noDouble s = true →
    noDouble (trimRight s) = true := by
  intro s
  induction s with
  | nil => intro _; rfl
  | cons c rest ih =>
    intro h
    rw [trimRight]
    rcases hr : trimRight rest with _ | ⟨y, ys⟩
    · by_cases hc : c = ' '
      · rw [if_pos hc]; rfl
      · rw [if_neg hc]; rfl
    · obtain ⟨t, ht⟩ := trimRight_head hr
      subst ht
      rw [noDouble, Bool.and_eq_true]
      refine ⟨?_, by rw [← hr]; exact ih (noDouble_tail h)⟩
      rw [noDouble, Bool.and_eq_true] at h
      exact h.1

lemma headOK_trimRight {s : List Char} (h : headOK s = true) :
    headOK (trimRight s) = true := by
  rcases hr : trimRight s with _ | ⟨y, ys⟩
  · rfl
  · obtain ⟨t, ht⟩ := trimRight_head hr
    subst ht
    exact h

/-- Every output of `normalizeFull` consists only of characters from
`[a-z0-9 ]`, contains no two consecutive spaces, and neither starts nor ends
with a space. -/
lemma normalizeFull_shape (t : Option (List Char)) :
    (normalizeFull t).all keepChar = true ∧ noDouble (normalizeFull t) = true ∧
    headOK (normalizeFull t) = true ∧ lastOK (normalizeFull t) = true := by
  rcases t with _ | s
  · exact ⟨rfl, rfl, rfl, rfl⟩
  · rw [normalizeFull]
    by_cases hs : s = []
    · rw [if_pos hs]; exact ⟨rfl, rfl, rfl, rfl⟩
    · rw [if_neg hs]
      set m := toSpaces (replaceTurkish (jsToLower s)) with hm
      have hall : m.all keepChar = true := toSpaces_all _
      have hcol := collapseAux_shape m
      have hca : (collapseSpaces m).all keepChar = true := collapseAux_all rfl false m hall
      have hcn : noDouble (collapseSpaces m) = true := hcol.2.2
      refine ⟨?_, ?_, ?_, ?_⟩
      · exact trimRight_all _ (trimLeft_all _ hca)
      · exact trimRight_noDouble _ (trimLeft_noDouble _ hcn)
      · exact headOK_trimRight (headOK_trimLeft _)
      · exact lastOK_trimRight _

lemma keepChar_le (c : Char) (h : keepChar c = true) : c.toNat ≤ 122 := by
  rw [keepChar, Bool.or_eq_true, Bool.or_eq_true, Bool.and_eq_true, Bool.and_eq_true] at h
  simp only [decide_eq_true_eq, beq_iff_eq] at h
  rcases h with (⟨_, h2⟩ | ⟨_, h2⟩) | h2 <;> omega

lemma jsLowerChar_keep {c : Char} (h : keepChar c = true) : jsLowerChar c = [c] := by
  have hle := keepChar_le c h
  rw [keepChar, Bool.or_eq_true, Bool.or_eq_true, Bool.and_eq_true, Bool.and_eq_true] at h
  simp only [decide_eq_true_eq, beq_iff_eq] at h
  have hAZ : ¬(65 ≤ c.toNat ∧ c.toNat ≤ 90) := by
    rcases h with (⟨h1, _⟩ | ⟨_, h2⟩) | h1 <;> omega
  rw [jsLowerChar, if_neg hAZ,
    if_neg (fun hc => by rw [hc] at hle; revert hle; decide),
    if_neg (fun hc => by rw [hc] at hle; revert hle; decide),
    if_neg (fun hc => by rw [hc] at hle; revert hle; decide),
    if_neg (fun hc => by rw [hc] at hle; revert hle; decide),
    if_neg (fun hc => by rw [hc] at hle; revert hle; decide),
    if_neg (fun hc => by rw [hc] at hle; revert hle; decide),
    if_neg (fun hc => by rw [hc] at hle; revert hle; decide)]

lemma jsToLower_keep {s : List Char} (h : s.all keepChar = true) : jsToLower s = s := by
  induction s with
  | nil => rfl
  | cons c rest ih =>
    rw [List.all_cons, Bool.and_eq_true] at h
    rw [jsToLower, List.flatMap_cons, jsLowerChar_keep h.1]
    rw [jsToLower] at ih
    rw [ih h.2]
    rfl

lemma replChar_keep {a b : Char} (ha : 199 ≤ a.toNat) {s : List Char}
    (h : s.all keepChar = true) : replChar a b s = s := by
  rw [replChar]
  refine (List.map_congr_left fun c hc => ?_).trans (List.map_id s)
  have hle := keepChar_le c (by rw [List.all_eq_true] at h; exact h c hc)
  rw [if_neg (fun he => by rw [he] at hle; omega)]
  rfl

lemma replaceTurkish_keep {s : List Char} (h : s.all keepChar = true) :
    replaceTurkish s = s := by
  rw [replaceTurkish]
  rw [replChar_keep (by decide) h, replChar_keep (by decide) h,
    replChar_keep (by decide) h, replChar_keep (by decide) h,
    replChar_keep (by decide) h, replChar_keep (by decide) h,
    replChar_keep (by decide) h, replChar_keep (by decide) h,
    replChar_keep (by decide) h, replChar_keep (by decide) h,
    replChar_keep (by decide) h, replChar_keep (by decide) h]

lemma toSpaces_keep {s : List Char} (h : s.all keepChar = true) : toSpaces s = s := by
  rw [toSpaces]
  refine (List.map_congr_left fun c hc => ?_).trans (List.map_id s)
  rw [if_pos (by rw [List.all_eq_true] at h; exact h c hc)]
  rfl

lemma collapseAux_fix : ∀ s : List Char,
    (noDouble s = true → collapseAux false s = s) ∧
    (noDouble s = true → headOK s = true → collapseAux true s = s) := by
  intro s
  induction s with
  | nil => exact ⟨fun _ => rfl, fun _ _ => rfl⟩
  | cons c rest ih =>
    constructor
    · intro h
      by_cases hc : c = ' '
      · subst hc
        rw [collapseAux, if_pos rfl, if_neg (by simp)]
        have hrest : headOK rest = true := by
          cases rest with
          | nil => rfl
          | cons b t =>
            rw [noDouble, Bool.and_eq_true] at h
            rw [headOK]
            have := h.1
            simp only [Bool.not_eq_true', Bool.and_eq_false_iff] at this
            rcases this with h1 | h1
            · exact absurd h1 (by simp)
            · simpa using h1
        rw [ih.2 (noDouble_tail h) hrest]
      · rw [collapseAux, if_neg hc, ih.1 (noDouble_tail h)]
    · intro h hh
      rw [headOK] at hh
      have hc : ¬ c = ' ' := by simpa using hh
      rw [collapseAux, if_neg hc, ih.1 (noDouble_tail h)]

lemma trimLeft_fix {s : List Char} (h : headOK s = true) : trimLeft s = s := by
  cases s with
  | nil => rfl
  | cons c rest =>
    rw [headOK] at h
    rw [trimLeft, List.dropWhile_cons, if_neg (by simpa using h)]

lemma trimRight_fix : ∀ s : List Char, lastOK s = true → trimRight s = s := by
  intro s
  induction s with
  | nil => intro _; rfl
  | cons c rest ih =>
    intro h
    rw [trimRight]
    cases rest with
    | nil =>
      rw [lastOK] at h
      rw [trimRight, if_neg (by simpa using h)]
    | cons b t =>
      rw [lastOK] at h
      rw [ih h]

/-- A string already in normalized shape is a fixed point of
`normalizeFull`. -/
lemma normalizeFull_fix {s : List Char} (h1 : s.all keepChar = true)
    (h2 : noDouble s = true) (h3 : headOK s = true) (h4 : lastOK s = true) :
    normalizeFull (some s) = s := by
  rw [normalizeFull]
  by_cases hs : s = []
  · rw [if_pos hs, hs]
  · rw [if_neg hs, jsToLower_keep h1, replaceTurkish_keep h1, toSpaces_keep h1,
      collapseSpaces, (collapseAux_fix s).1 h2, trimSpaces, trimLeft_fix h3,
      trimRight_fix s h4]

/-- The character-cleaning stage of `normalizeFull` (lowercase, Turkish
replacements, non-`[a-z0-9 ]` to space), applied to a single source
character. -/
def cleanChar (c : Char) : List Char :=
  toSpaces (replaceTurkish (jsLowerChar c))

lemma replaceTurkish_append (a b : List Char) :
    replaceTurkish (a ++ b) = replaceTurkish a ++ replaceTurkish b := by
  simp [replaceTurkish, replChar]

lemma toSpaces_append (a b : List Char) :
    toSpaces (a ++ b) = toSpaces a ++ toSpaces b := by
  simp [toSpaces]

lemma clean_flatMap : ∀ s : List Char,
    toSpaces (replaceTurkish (jsToLower s)) = s.flatMap cleanChar := by
  intro s
  induction s with
  | nil => rfl
  | cons c rest ih =>
    rw [jsToLower, List.flatMap_cons, ← jsToLower, replaceTurkish_append,
      toSpaces_append, ih, List.flatMap_cons, cleanChar]

/-- Folding of the Turkish-specific characters to their ASCII base, as the
claimed contract of `normalizeFull` describes it, except that `İ` (whose
JavaScript lowercase is `i` followed by COMBINING DOT ABOVE) maps to `i`
plus a space — the extra token boundary the code actually produces. -/
def turkFold : Char → List Char
  | 'ı' => ['i']
  | 'İ' => ['i', ' ']
  | 'ş' | 'Ş' => ['s']
  | 'ğ' | 'Ğ' => ['g']
  | 'ü' | 'Ü' => ['u']
  | 'ö' | 'Ö' => ['o']
  | 'ç' | 'Ç' => ['c']
  | c => [c]

lemma turkFold_ne_nil (c : Char) : turkFold c ≠ [] := by
  unfold turkFold
  split <;> simp

lemma cleanChar_turkFold (c : Char) :
    (turkFold c).flatMap cleanChar = cleanChar c := by
  unfold turkFold
  split
  all_goals first
    | decide
    | simp

lemma flatMap_turkFold_eq_nil {s : List Char} :
    s.flatMap turkFold = [] ↔ s = [] := by
  cases s with
  | nil => simp
  | cons c rest =>
    rw [List.flatMap_cons]
    simp only [List.append_eq_nil, List.cons_ne_nil, iff_false]
    intro h
    exact turkFold_ne_nil c h.1

/-- Claim C1 (counterexample).  `normalizeFull` does not fold `İ` to a bare
`i`: lowercasing `İ` (U+0130) yields `i` followed by COMBINING DOT ABOVE
(U+0307), the combining dot falls outside `[a-z0-9 ]` and becomes a space,
so an extra space appears (`"aİb" ↦ "ai b"`, not `"aib"`).  Likewise a
non-Turkish diacritic letter is replaced by a space, not folded to its
ASCII base (`"café" ↦ "caf"`, not `"cafe"`). -/
theorem normalizeFull_fold_counterexample :
    normalizeFull (some "aİb".data) = "ai b".data ∧
    normalizeFull (some "aib".data) = "aib".data ∧
    normalizeFull (some "aİb".data) ≠ normalizeFull (some "aib".data) ∧
    normalizeFull (some "café".data) = "caf".data ∧
    "caf".data ≠ "cafe".data := by
  refine ⟨by decide, by decide, ?_, by decide, by decide⟩
  decide

/-- Claim C1 (amended).  For every input string, `normalizeFull` gives the
same result as first folding the Turkish-specific characters
ı/ş/ğ/ü/ö/ç (and their uppercase forms other than `İ`) to their ASCII base
letter, and replacing `İ` by `"i "` — an `i` plus a space, the extra token
boundary left by the combining dot of its Unicode lowercase.  Any other
character outside `[a-z0-9 ]` (including every other diacritic letter) is
replaced by a space rather than folded; the result is then lowercased,
space-collapsed and trimmed as the claim states (see the shape theorem for
C8).  Concretely, `"CAFÉ İstanbul ışık"` normalizes to
`"caf i stanbul isik"`. -/
theorem normalizeFull_fold_amended :
    (∀ s : List Char,
      normalizeFull (some s) = normalizeFull (some (s.flatMap turkFold))) ∧
    normalizeFull (some "CAFÉ İstanbul ışık".data) = "caf i stanbul isik".data := by
  refine ⟨fun s => ?_, by decide⟩
  by_cases hs : s = []
  · subst hs; rfl
  · rw [normalizeFull, normalizeFull, if_neg hs,
      if_neg (fun h => hs (flatMap_turkFold_eq_nil.mp h)),
      clean_flatMap, clean_flatMap, List.flatMap_assoc,
      List.flatMap_congr fun c _ => cleanChar_turkFold c]

/-- Claim C2.  Normalization is idempotent: re-normalizing the output of
`normalizeFull` returns it unchanged (the output is made of `[a-z0-9 ]`
characters with single interior spaces, and every stage of `normalizeFull`
fixes such strings). -/
theorem normalizeFull_idempotent (t : Option (List Char)) :
    normalizeFull (some (normalizeFull t)) = normalizeFull t := by
  obtain ⟨h1, h2, h3, h4⟩ := normalizeFull_shape t
  exact normalizeFull_fix h1 h2 h3 h4

/-- Claim C8.  Every output of `normalizeFull` consists only of characters
`a`–`z`, `0`–`9` and spaces, with no leading space, no trailing space and no
two consecutive spaces; a `null`/`undefined` (modelled `none`) or empty
input yields the empty string.  The model is a total Lean function, which
witnesses that the source function cannot throw on any input. -/
theorem normalizeFull_output_shape :
    (∀ t : Option (List Char), (normalizeFull t).all keepChar = true ∧
      noDouble (normalizeFull t) = true ∧ headOK (normalizeFull t) = true ∧
      lastOK (normalizeFull t) = true) ∧
    normalizeFull none = [] ∧ normalizeFull (some []) = [] :=
  ⟨normalizeFull_shape, rfl, rfl⟩

/-! Model of `toNumber` (xAPI-n8n-normalize.js lines 18–25; the identical
function also appears in the second statement-builder script,
src/unnamed/part_005 lines 14–21):

    function toNumber(val) {
      if (val === null || val === undefined) return undefined;
      const s = String(val).trim();
      if (s === "") return undefined;
      const normalized = s.replace(",", ".");
      const n = Number(normalized);
      return isNaN(n) ? undefined : n;
    }

`Number(...)` is modelled by `jsNumber` below, an implementation of the
ECMAScript `StringNumericLiteral` grammar over exact rationals; `none`
models the NaN result (a string not matching the grammar).  JavaScript
number values are IEEE doubles; the claims checked here depend only on
NaN-ness and on exactly representable values such as 12.5, so rationals are
a faithful value domain for them. -/

/-- ECMAScript WhiteSpace and LineTerminator code points (the set trimmed
by `String.prototype.trim` and ignored around a string numeric literal):
TAB, LF, VT, FF, CR, space, NBSP, Ogham space mark, the `U+2000`–`U+200A`
spaces, LS, PS, narrow no-break space, medium mathematical space,
ideographic space and ZWNBSP. -/
def jsWs (c : Char) : Bool :=
  (9 ≤ c.toNat && c.toNat ≤ 13) || c.toNat == 32 || c.toNat == 0xa0 ||
    c.toNat == 0x1680 || (0x2000 ≤ c.toNat && c.toNat ≤ 0x200a) ||
    c.toNat == 0x2028 || c.toNat == 0x2029 || c.toNat == 0x202f ||
    c.toNat == 0x205f || c.toNat == 0x3000 || c.toNat == 0xfeff

/-- JavaScript `String.prototype.trim`. -/
def jsTrim (s : List Char) : List Char :=
  ((s.dropWhile jsWs).reverse.dropWhile jsWs).reverse

/-- A JavaScript number result that is not NaN: a finite value (exact
rational) or a signed infinity. -/
inductive JsNum where
  | num (q : ℚ)
  | inf (neg : Bool)
deriving DecidableEq

/-- Negation of a JavaScript number (for a leading `-` sign). -/
def jsNeg : JsNum → JsNum
  | .num q => .num (-q)
  | .inf b => .inf (!b)

def isDigitC (c : Char) : Bool := 48 ≤ c.toNat && c.toNat ≤ 57

def isHexC (c : Char) : Bool :=
  isDigitC c || (97 ≤ c.toNat && c.toNat ≤ 102) || (65 ≤ c.toNat && c.toNat ≤ 70)

def isOctC (c : Char) : Bool := 48 ≤ c.toNat && c.toNat ≤ 55

def isBinC (c : Char) : Bool := c.toNat == 48 || c.toNat == 49

def hexVal (c : Char) : ℕ :=
  if isDigitC c then c.toNat - 48
  else if 97 ≤ c.toNat then c.toNat - 87
  else c.toNat - 55

def digitVal (c : Char) : ℕ := c.toNat - 48

/-- Value of a digit string in the given base. -/
def digitsToNat (base : ℕ) (val : Char → ℕ) (l : List Char) : ℕ :=
  l.foldl (fun acc c => acc * base + val c) 0

/-- Exponent part after the `e`/`E` marker: optional sign then one or more
decimal digits, consuming the whole remainder. -/
def parseExpTail : List Char → Option ℤ
  | [] => none
  | '+' :: r =>
    if r ≠ [] && r.all isDigitC then some (digitsToNat 10 digitVal r) else none
  | '-' :: r =>
    if r ≠ [] && r.all isDigitC then some (-(digitsToNat 10 digitVal r : ℤ)) else none
  | l =>
    if l.all isDigitC then some (digitsToNat 10 digitVal l) else none

/-- Optional `ExponentPart`: empty remainder means exponent 0, otherwise an
`e`/`E` marker followed by a signed digit string. -/
def parseExpOpt : List Char → Option ℤ
  | [] => some 0
  | 'e' :: r => parseExpTail r
  | 'E' :: r => parseExpTail r
  | _ => none

/-- `StrUnsignedDecimalLiteral` without the `Infinity` alternative:
`Digits [. Digits] [Exponent]` or `. Digits [Exponent]`. -/
def parseUnsignedDec (l : List Char) : Option ℚ :=
  match l.dropWhile isDigitC with
  | '.' :: r2 =>
    if (l.takeWhile isDigitC).isEmpty && (r2.takeWhile isDigitC).isEmpty then none
    else
      (parseExpOpt (r2.dropWhile isDigitC)).map fun e =>
        ((digitsToNat 10 digitVal (l.takeWhile isDigitC) : ℚ) +
          (digitsToNat 10 digitVal (r2.takeWhile isDigitC) : ℚ) /
            (10 : ℚ) ^ (r2.takeWhile isDigitC).length) * (10 : ℚ) ^ e
  | _ =>
    if (l.takeWhile isDigitC).isEmpty then none
    else
      (parseExpOpt (l.dropWhile isDigitC)).map fun e =>
        (digitsToNat 10 digitVal (l.takeWhile isDigitC) : ℚ) * (10 : ℚ) ^ e

/-- `StrUnsignedDecimalLiteral`: `Infinity` or an unsigned decimal. -/
def parseUnsigned (l : List Char) : Option JsNum :=
  if l = "Infinity".data then some (.inf false)
  else (parseUnsignedDec l).map .num

/-- A non-decimal integer literal `0x…`/`0o…`/`0b…`: one or more digits of
the base, consuming the whole remainder. -/
def parseRadix (valid : Char → Bool) (base : ℕ) (val : Char → ℕ)
    (r : List Char) : Option JsNum :=
  if r ≠ [] && r.all valid then some (.num (digitsToNat base val r)) else none

/-- `StrNumericLiteral` (already trimmed, non-empty). -/
def parseStrNum : List Char → Option JsNum
  | '0' :: 'x' :: r => parseRadix isHexC 16 hexVal r
  | '0' :: 'X' :: r => parseRadix isHexC 16 hexVal r
  | '0' :: 'o' :: r => parseRadix isOctC 8 digitVal r
  | '0' :: 'O' :: r => parseRadix isOctC 8 digitVal r
  | '0' :: 'b' :: r => parseRadix isBinC 2 digitVal r
  | '0' :: 'B' :: r => parseRadix isBinC 2 digitVal r
  | '+' :: r => parseUnsigned r
  | '-' :: r => (parseUnsigned r).map jsNeg
  | t => parseUnsigned t

/-- JavaScript `Number(string)`: trim; the empty string is `+0`; otherwise
the `StrNumericLiteral` grammar, whose failure is NaN (`none` here). -/
def jsNumber (s : List Char) : Option JsNum :=
  if jsTrim s = [] then some (.num 0) else parseStrNum (jsTrim s)

/-- JavaScript `s.replace(",", ".")` with string pattern: only the first
occurrence is replaced. -/
def replaceFirstComma : List Char → List Char
  | [] => []
  | c :: rest => if c = ',' then '.' :: rest else c :: replaceFirstComma rest

/-- Model of `toNumber`.  `none` input models a `null`/`undefined`
argument; `none` output models `undefined`. -/
def toNumber (v : Option (List Char)) : Option JsNum :=
  match v with
  | none => none
  | some raw =>
    if jsTrim raw = [] then none
    else
      match jsNumber (replaceFirstComma (jsTrim raw)) with
      | none => none
      | some n => some n

lemma all_eq_false_of_mem {p : Char → Bool} {a : Char} {l : List Char}
    (ha : a ∈ l) (hp : p a = false) : l.all p = false :=
  List.all_eq_false.mpr ⟨a, ha, by simp [hp]⟩

lemma comma_mem_dropWhile {l : List Char} (h : ',' ∈ l) :
    ',' ∈ l.dropWhile jsWs := by
  have hsplit := List.takeWhile_append_dropWhile (p := jsWs) (l := l)
  rw [← hsplit, List.mem_append] at h
  rcases h with h | h
  · have := List.mem_takeWhile_imp h
    exact absurd this (by decide)
  · exact h

lemma comma_mem_jsTrim {l : List Char} (h : ',' ∈ l) : ',' ∈ jsTrim l := by
  rw [jsTrim, List.mem_reverse]
  exact comma_mem_dropWhile (by rw [List.mem_reverse]; exact comma_mem_dropWhile h)

lemma mem_of_mem_cons_ne {a b : Char} {l : List Char} (h : a ∈ b :: l)
    (hne : a ≠ b) : a ∈ l := by
  rcases List.mem_cons.mp h with h1 | h1
  · exact absurd h1 hne
  · exact h1

lemma parseExpTail_comma : ∀ {l : List Char}, ',' ∈ l → parseExpTail l = none := by
  intro l h
  unfold parseExpTail
  split
  · exact absurd h (by simp)
  · rename_i r
    rw [if_neg]
    intro hcond
    rw [Bool.and_eq_true] at hcond
    have hr : ',' ∈ r := mem_of_mem_cons_ne h (by decide)
    rw [all_eq_false_of_mem hr (by decide)] at hcond
    exact absurd hcond.2 (by simp)
  · rename_i r
    rw [if_neg]
    intro hcond
    rw [Bool.and_eq_true] at hcond
    have hr : ',' ∈ r := mem_of_mem_cons_ne h (by decide)
    rw [all_eq_false_of_mem hr (by decide)] at hcond
    exact absurd hcond.2 (by simp)
  · rw [if_neg]
    intro hcond
    rw [all_eq_false_of_mem h (by decide)] at hcond
    exact absurd hcond (by simp)

lemma parseExpOpt_comma : ∀ {l : List Char}, ',' ∈ l → parseExpOpt l = none := by
  intro l h
  unfold parseExpOpt
  split
  · exact absurd h (by simp)
  · exact parseExpTail_comma (mem_of_mem_cons_ne h (by decide))
  · exact parseExpTail_comma (mem_of_mem_cons_ne h (by decide))
  · rfl

lemma comma_mem_dropWhile_digits {l : List Char} (h : ',' ∈ l) :
    ',' ∈ l.dropWhile isDigitC := by
  have hsplit := List.takeWhile_append_dropWhile (p := isDigitC) (l := l)
  rw [← hsplit, List.mem_append] at h
  rcases h with h | h
  · have := List.mem_takeWhile_imp h
    exact absurd this (by decide)
  · exact h

lemma parseUnsignedDec_comma {l : List Char} (h : ',' ∈ l) :
    parseUnsignedDec l = none := by
  have h1 : ',' ∈ l.dropWhile isDigitC := comma_mem_dropWhile_digits h
  unfold parseUnsignedDec
  split
  · rename_i r2 heq
    rw [heq] at h1
    have h2 : ',' ∈ r2 := mem_of_mem_cons_ne h1 (by decide)
    have h3 : ',' ∈ r2.dropWhile isDigitC := comma_mem_dropWhile_digits h2
    by_cases hc : ((l.takeWhile isDigitC).isEmpty && (r2.takeWhile isDigitC).isEmpty) = true
    · rw [if_pos hc]
    · rw [if_neg hc, parseExpOpt_comma h3]
      rfl
  · by_cases hc : (l.takeWhile isDigitC).isEmpty = true
    · rw [if_pos hc]
    · rw [if_neg hc, parseExpOpt_comma h1]
      rfl

lemma parseUnsigned_comma {l : List Char} (h : ',' ∈ l) :
    parseUnsigned l = none := by
  rw [parseUnsigned]
  by_cases hinf : l = "Infinity".data
  · rw [hinf] at h
    exact absurd h (by decide)
  · rw [if_neg hinf, parseUnsignedDec_comma h]
    rfl

lemma parseRadix_comma {valid : Char → Bool} {base : ℕ} {val : Char → ℕ}
    {r : List Char} (h : ',' ∈ r) (hv : valid ',' = false) :
    parseRadix valid base val r = none := by
  rw [parseRadix, if_neg]
  intro hcond
  rw [Bool.and_eq_true] at hcond
  rw [all_eq_false_of_mem h hv] at hcond
  exact absurd hcond.2 (by simp)

lemma parseStrNum_comma : ∀ {t : List Char}, ',' ∈ t → parseStrNum t = none := by
  intro t h
  unfold parseStrNum
  split
  · exact parseRadix_comma
      (mem_of_mem_cons_ne (mem_of_mem_cons_ne h (by decide)) (by decide)) (by decide)
  · exact parseRadix_comma
      (mem_of_mem_cons_ne (mem_of_mem_cons_ne h (by decide)) (by decide)) (by decide)
  · exact parseRadix_comma
      (mem_of_mem_cons_ne (mem_of_mem_cons_ne h (by decide)) (by decide)) (by decide)
  · exact parseRadix_comma
      (mem_of_mem_cons_ne (mem_of_mem_cons_ne h (by decide)) (by decide)) (by decide)
  · exact parseRadix_comma
      (mem_of_mem_cons_ne (mem_of_mem_cons_ne h (by decide)) (by decide)) (by decide)
  · exact parseRadix_comma
      (mem_of_mem_cons_ne (mem_of_mem_cons_ne h (by decide)) (by decide)) (by decide)
  · exact parseUnsigned_comma (mem_of_mem_cons_ne h (by decide))
  · rw [parseUnsigned_comma (mem_of_mem_cons_ne h (by decide))]
    rfl
  · exact parseUnsigned_comma h

lemma jsNumber_comma {s : List Char} (h : ',' ∈ s) : jsNumber s = none := by
  have ht : ',' ∈ jsTrim s := comma_mem_jsTrim h
  rw [jsNumber]
  rw [if_neg (fun he => by rw [he] at ht; exact absurd ht (by simp))]
  exact parseStrNum_comma ht

lemma replaceFirstComma_mem : ∀ {s : List Char}, 2 ≤ s.count ',' →
    ',' ∈ replaceFirstComma s := by
  intro s
  induction s with
  | nil => intro h; exact absurd h (by decide)
  | cons c rest ih =>
    intro h
    by_cases hc : c = ','
    · subst hc
      rw [replaceFirstComma, if_pos rfl]
      rw [List.count_cons_self] at h
      refine List.mem_cons_of_mem _ (List.count_pos_iff.mp ?_)
      omega
    · rw [replaceFirstComma, if_neg hc]
      rw [List.count_cons_of_ne (fun he => hc he.symm)] at h
      exact List.mem_cons_of_mem _ (ih h)

lemma count_comma_jsTrim (l : List Char) : (jsTrim l).count ',' = l.count ',' := by
  have key : ∀ m : List Char, (m.dropWhile jsWs).count ',' = m.count ',' := by
    intro m
    conv_rhs => rw [← List.takeWhile_append_dropWhile (p := jsWs) (l := m)]
    rw [List.count_append]
    have : (m.takeWhile jsWs).count ',' = 0 := by
      rw [List.count_eq_zero]
      intro hmem
      exact absurd (List.mem_takeWhile_imp hmem) (by decide)
    omega
  rw [jsTrim, List.count_reverse, key, List.count_reverse, key]

/-- Claim C9.  `toNumber` is total and never yields NaN: the model returns
`some` (a number: finite rational or infinity) or `none` (`undefined`),
and NaN is unrepresentable in its result type because the source checks
`isNaN(n)` and returns `undefined` in that case.  `null`/`undefined`
(modelled `none`), the empty string, a whitespace-only string and a
non-numeric string yield `undefined`; `"12,5"` is parsed exactly as
`Number("12.5")` (first comma replaced by a period), giving 12.5 = 25/2;
and any string with two or more commas yields `undefined` (after the single
replacement a comma remains, which no numeric literal allows). -/
theorem toNumber_spec :
    toNumber none = none ∧
    toNumber (some "".data) = none ∧
    toNumber (some "   ".data) = none ∧
    toNumber (some "abc".data) = none ∧
    toNumber (some "12,5".data) = jsNumber "12.5".data ∧
    (∃ q : ℚ, toNumber (some "12,5".data) = some (JsNum.num q) ∧ q = 25 / 2) ∧
    (∀ s : List Char, 2 ≤ s.count ',' → toNumber (some s) = none) ∧
    (∀ v : Option (List Char), toNumber v = none ∨ ∃ n : JsNum, toNumber v = some n) := by
  refine ⟨rfl, rfl, by decide, by decide, rfl, ?_, ?_, ?_⟩
  · refine ⟨(((12 : ℕ) : ℚ) + ((5 : ℕ) : ℚ) / (10 : ℚ) ^ (1 : ℕ)) * (10 : ℚ) ^ (0 : ℤ),
      rfl, ?_⟩
    push_cast
    norm_num
  · intro s hs
    rw [toNumber]
    have hmem : ',' ∈ jsTrim s := by
      refine List.count_pos_iff.mp ?_
      rw [count_comma_jsTrim]
      omega
    rw [if_neg (fun he => by rw [he] at hmem; exact absurd hmem (by simp))]
    have h2 : 2 ≤ (jsTrim s).count ',' := by rw [count_comma_jsTrim]; exact hs
    rw [jsNumber_comma (replaceFirstComma_mem h2)]
  · intro v
    rcases hv : toNumber v with _ | n
    · exact Or.inl rfl
    · exact Or.inr ⟨n, rfl⟩

/-- Claim C9 witness: the two-comma string `"1,2,3"` satisfies the comma
hypothesis and `toNumber` returns `undefined` on it. -/
theorem toNumber_spec_witness :
    2 ≤ ("1,2,3".data).count ',' ∧ toNumber (some "1,2,3".data) = none :=
  ⟨by decide, toNumber_spec.2.2.2.2.2.2.1 "1,2,3".data (by decide)⟩

/-! Model of `getVerb` (xAPI-n8n-normalize.js lines 106–139) and the
`VERB_MAP` entries it reads (lines 82–103). -/

/-- Does `hay` start with `pat`? -/
def startsWith : List Char → List Char → Bool
  | _, [] => true
  | [], _ :: _ => false
  | c :: cs, p :: ps => c == p && startsWith cs ps

/-- JavaScript `hay.includes(pat)`: substring containment. -/
def containsSub : List Char → List Char → Bool
  | [], pat => pat.isEmpty
  | hay :: rest, pat => startsWith (hay :: rest) pat || containsSub rest pat

/-- An xAPI verb: IRI plus its Turkish and English display strings. -/
structure Verb where
  id : List Char
  trTR : List Char
  enUS : List Char
deriving DecidableEq

def VERB_BAKIM : Verb :=
  ⟨"https://promptever.com/verbs/maintained".data, "Bakım".data, "Maintained".data⟩

def VERB_ONARIM : Verb :=
  ⟨"https://promptever.com/verbs/repaired".data, "Onarım".data, "Repaired".data⟩

/-- The value shared by the `"ONARIM KAZA"` and `"KAZA ONARIM"` keys of
`VERB_MAP` (they are identical records; only the first is read by
`getVerb`). -/
def VERB_ONARIM_KAZA : Verb :=
  ⟨"https://promptever.com/verbs/accident-repaired".data, "Kaza Onarımı".data,
    "Accident Repaired".data⟩

def VERB_AKSIYON : Verb :=
  ⟨"https://promptever.com/verbs/action".data, "Aksiyon".data, "Action".data⟩

/-- Turkish display of the fallback verb: `islemturu || "Tamamlandı"` (a
`null`/`undefined` or empty operation type falls back to the constant). -/
def fallbackTr : Option (List Char) → List Char
  | none => "Tamamlandı".data
  | some s => if s = [] then "Tamamlandı".data else s

/-- The fallback verb of `getVerb` (lines 134–138). -/
def fallbackVerb (islemturu : Option (List Char)) : Verb :=
  ⟨"http://adlnet.gov/expapi/verbs/completed".data, fallbackTr islemturu,
    "Completed".data⟩

/-- Model of `getVerb`: normalize the operation type
(`normalizeFull(islemturu || "")` — `none` and the empty string normalize
identically), then test keyword containment in source order:
accident repair (`onarim` and `kaza`), `aksiyon`, second-hand repair
(`2`, `el`, `onarim`), general `onarim`, general `bakim`, fallback. -/
def getVerb (islemturu : Option (List Char)) : Verb :=
  if containsSub (normalizeFull islemturu) "onarim".data &&
      containsSub (normalizeFull islemturu) "kaza".data then VERB_ONARIM_KAZA
  else if containsSub (normalizeFull islemturu) "aksiyon".data then VERB_AKSIYON
  else if containsSub (normalizeFull islemturu) "2".data &&
      containsSub (normalizeFull islemturu) "el".data &&
      containsSub (normalizeFull islemturu) "onarim".data then VERB_ONARIM
  else if containsSub (normalizeFull islemturu) "onarim".data then VERB_ONARIM
  else if containsSub (normalizeFull islemturu) "bakim".data then VERB_BAKIM
  else fallbackVerb islemturu

/-- Claim C10.  `getVerb` is total (the model is a total function) and its
keyword precedence is fixed: `onarim` together with `kaza` gives the
accident-repaired verb regardless of any other keyword; otherwise `aksiyon`
beats `onarim` (and `bakim`); otherwise `onarim` beats `bakim` (both the
second-hand branch and the general branch return the same repaired verb);
and a normalized form containing none of `onarim`, `aksiyon`, `bakim`
receives the adlnet `completed` fallback verb. -/
theorem getVerb_precedence :
    (∀ v, containsSub (normalizeFull v) "onarim".data = true →
      containsSub (normalizeFull v) "kaza".data = true →
      getVerb v = VERB_ONARIM_KAZA) ∧
    (∀ v, containsSub (normalizeFull v) "aksiyon".data = true →
      (containsSub (normalizeFull v) "onarim".data = false ∨
        containsSub (normalizeFull v) "kaza".data = false) →
      getVerb v = VERB_AKSIYON) ∧
    (∀ v, containsSub (normalizeFull v) "onarim".data = true →
      containsSub (normalizeFull v) "kaza".data = false →
      containsSub (normalizeFull v) "aksiyon".data = false →
      getVerb v = VERB_ONARIM) ∧
    (∀ v, containsSub (normalizeFull v) "onarim".data = false →
      containsSub (normalizeFull v) "aksiyon".data = false →
      containsSub (normalizeFull v) "bakim".data = false →
      getVerb v = fallbackVerb v) := by
  refine ⟨?_, ?_, ?_, ?_⟩
  · intro v h1 h2
    rw [getVerb, if_pos (by rw [h1, h2]; rfl)]
  · intro v h1 h2
    rw [getVerb, if_neg, if_pos h1]
    rcases h2 with h2 | h2 <;> rw [h2] <;> simp
  · intro v h1 h2 h3
    rw [getVerb, if_neg (by rw [h2]; simp), if_neg (by rw [h3]; simp)]
    by_cases h4 : (containsSub (normalizeFull v) "2".data &&
        containsSub (normalizeFull v) "el".data &&
        containsSub (normalizeFull v) "onarim".data) = true
    · rw [if_pos h4]
    · rw [if_neg h4, if_pos h1]
  · intro v h1 h2 h3
    rw [getVerb, if_neg (by rw [h1]; simp), if_neg (by rw [h2]; simp),
      if_neg (by rw [h1]; simp), if_neg (by rw [h1]; simp), if_neg (by rw [h3]; simp)]

/-- Claim C10 witness: concrete operation-type strings exercising each
branch of the precedence contract through the theorem itself. -/
theorem getVerb_precedence_witness :
    getVerb (some "KAZA SONRASI BAKIM ONARIMI".data) = VERB_ONARIM_KAZA ∧
    getVerb (some "Aksiyon Onarım".data) = VERB_AKSIYON ∧
    getVerb (some "2.EL ONARIM VE BAKIM".data) = VERB_ONARIM ∧
    getVerb (some "EURO6 C-D-E TESLİMAT".data) =
      fallbackVerb (some "EURO6 C-D-E TESLİMAT".data) :=
  ⟨getVerb_precedence.1 _ (by decide) (by decide),
   getVerb_precedence.2.1 _ (by decide) (Or.inr (by decide)),
   getVerb_precedence.2.2.1 _ (by decide) (by decide) (by decide),
   getVerb_precedence.2.2.2 _ (by decide) (by decide) (by decide)⟩

/-!
### The intent router, modelled from the specification

Modelled from the spec: the Python sources the README names
(`advanced_intent_router.py`, `canonical_questions.py`,
`xapi_statement_schema.py`, `nlp_constants.py`, `nlp_utils.py`) are not part
of this source excerpt — only the README describing them is.  The
definitions below follow spec §2–§4 and §7 and the README's catalogue
tables: Normalizer → Entity Extractor → Intent Matcher → Intent Refiner →
Query Plan Synthesizer. -/

/-- The 12 canonical question archetypes (spec §3, README). -/
inductive QType where
  | MAINTENANCE_HISTORY | FAULT_ANALYSIS | MATERIAL_USAGE | COST_ANALYSIS
  | VEHICLE_BASED | CUSTOMER_BASED | SERVICE_BASED | TIME_SERIES
  | SEASONAL | TOP_ENTITIES | DISTRIBUTION | COMPARISON
deriving DecidableEq

/-- Position in the fixed tie-break priority ordering of spec §4.3:
MAINTENANCE_HISTORY, FAULT_ANALYSIS, MATERIAL_USAGE, COST_ANALYSIS,
VEHICLE_BASED, CUSTOMER_BASED, SERVICE_BASED, TIME_SERIES, SEASONAL,
TOP_ENTITIES, DISTRIBUTION, COMPARISON (earlier index preferred). -/
def priorityIndex : QType → ℕ
  | .MAINTENANCE_HISTORY => 0
  | .FAULT_ANALYSIS => 1
  | .MATERIAL_USAGE => 2
  | .COST_ANALYSIS => 3
  | .VEHICLE_BASED => 4
  | .CUSTOMER_BASED => 5
  | .SERVICE_BASED => 6
  | .TIME_SERIES => 7
  | .SEASONAL => 8
  | .TOP_ENTITIES => 9
  | .DISTRIBUTION => 10
  | .COMPARISON => 11

inductive Season where
  | winter | spring | summer | autumn
deriving DecidableEq

/-- Closed vehicle-type dictionary (spec §9: closed tagged variants). -/
inductive VehicleType where
  | bus | truck
deriving DecidableEq

/-- Closed manufacturer dictionary. -/
inductive Manufacturer where
  | man | mercedes
deriving DecidableEq

/-- Logical dimension names of the schema registry (README table). -/
inductive Dim where
  | vehicleId | customerId | serviceLocation | vehicleType | manufacturer
  | materialName | faultCode | year | month | season | verbType
deriving DecidableEq

/-- Metric names of the schema registry (README table). -/
inductive Metric where
  | count | sum_quantity | sum_cost | avg_cost | avg_km
deriving DecidableEq

/-- EntityBag (spec §3): all entities extracted from one question; every
field is empty/`none` when nothing was found. -/
structure EntityBag where
  years : List ℤ
  months : List ℕ
  seasons : List Season
  vehicleIds : List (List Char)
  customerIds : List (List Char)
  serviceIds : List (List Char)
  vehicleTypes : List VehicleType
  manufacturers : List Manufacturer
  faultCodes : List (List Char)
  materialKeywords : List (List Char)
  hasTopSignal : Bool
  topLimit : Option ℕ
  comparisonEntities : List (List Char)
deriving DecidableEq

def emptyBag : EntityBag :=
  ⟨[], [], [], [], [], [], [], [], [], [], false, none, []⟩

/-- Filter values: one equality per single-valued entity, one in-set filter
(not several equalities) per multi-valued entity (spec §4.5). -/
inductive FilterVal where
  | strEq (v : List Char)
  | strIn (vs : List (List Char))
  | natEq (v : ℕ)
  | natIn (vs : List ℕ)
  | seasonEq (v : Season)
  | seasonIn (vs : List Season)
  | vtEq (v : VehicleType)
  | vtIn (vs : List VehicleType)
  | manEq (v : Manufacturer)
  | manIn (vs : List Manufacturer)
  | boolVal (b : Bool)
deriving DecidableEq

/-- Filter keys: a schema dimension, or the FAULT_ANALYSIS default filter
`hasFault` (README). -/
inductive FKey where
  | dim (d : Dim)
  | hasFault
deriving DecidableEq

/-- CanonicalQuestion (spec §3): a static archetype record.  A trigger is a
list of words (multi-word triggers count as one hit when all their words
co-occur in the token set, spec §4.3). -/
structure CanonicalQuestion where
  qtype : QType
  triggers : List (List (List Char))
  requiredDimensions : List Dim
  optionalDimensions : List Dim
  metrics : List Metric
  defaultSort : Metric
  defaultFilters : List (FKey × FilterVal)
deriving DecidableEq

/-- Catalogue entries, with trigger keywords, dimensions and metrics taken
from the README's per-archetype tables (trigger words in their normalized,
diacritic-folded form). -/
def cqMaintenanceHistory : CanonicalQuestion :=
  ⟨.MAINTENANCE_HISTORY,
   [["gecmis".data], ["bakim".data, "gecmisi".data], ["servis".data, "gecmisi".data],
    ["bakim".data, "kaydi".data], ["son".data, "bakim".data]],
   [.vehicleId], [.year, .month, .verbType],
   [.count, .sum_cost, .avg_km], .count, []⟩

def cqFaultAnalysis : CanonicalQuestion :=
  ⟨.FAULT_ANALYSIS,
   [["ariza".data], ["fault".data], ["hata".data], ["sorun".data],
    ["ariza".data, "kodu".data], ["en".data, "sik".data, "ariza".data]],
   [.faultCode], [.vehicleType, .manufacturer, .year, .month],
   [.count, .sum_cost], .count, [(.hasFault, .boolVal true)]⟩

def cqMaterialUsage : CanonicalQuestion :=
  ⟨.MATERIAL_USAGE,
   [["malzeme".data], ["parca".data], ["kullanilan".data],
    ["malzeme".data, "kullanim".data], ["malzeme".data, "dagilim".data]],
   [.materialName], [.vehicleType, .manufacturer, .year, .month],
   [.count, .sum_quantity, .sum_cost], .count, []⟩

def cqCostAnalysis : CanonicalQuestion :=
  ⟨.COST_ANALYSIS,
   [["maliyet".data], ["harcama".data], ["tutar".data], ["para".data],
    ["toplam".data, "maliyet".data], ["bakim".data, "maliyeti".data]],
   [], [.vehicleType, .manufacturer, .year, .month, .serviceLocation],
   [.count, .sum_cost, .avg_cost], .sum_cost, []⟩

def cqVehicleBased : CanonicalQuestion :=
  ⟨.VEHICLE_BASED,
   [["arac".data], ["plaka".data], ["vehicle".data], ["kamyon".data], ["otobus".data],
    ["hangi".data, "araclar".data], ["arac".data, "bazinda".data]],
   [.vehicleId], [.vehicleType, .manufacturer, .year],
   [.count, .sum_cost, .avg_cost], .count, []⟩

def cqCustomerBased : CanonicalQuestion :=
  ⟨.CUSTOMER_BASED,
   [["musteri".data], ["customer".data], ["firma".data], ["sirket".data],
    ["hangi".data, "musteriler".data]],
   [.customerId], [.year, .month, .serviceLocation],
   [.count, .sum_cost, .avg_cost], .count, []⟩

def cqServiceBased : CanonicalQuestion :=
  ⟨.SERVICE_BASED,
   [["servis".data], ["lokasyon".data], ["location".data], ["sube".data],
    ["hangi".data, "servisler".data]],
   [.serviceLocation], [.year, .month, .vehicleType],
   [.count, .sum_cost, .avg_cost], .count, []⟩

def cqTimeSeries : CanonicalQuestion :=
  ⟨.TIME_SERIES,
   [["trend".data], ["zaman".data], ["yillara".data], ["aylara".data],
    ["yillara".data, "gore".data], ["donem".data]],
   [.year], [.month, .vehicleType, .manufacturer],
   [.count, .sum_cost, .sum_quantity], .count, []⟩

def cqSeasonal : CanonicalQuestion :=
  ⟨.SEASONAL,
   [["mevsim".data], ["sezon".data], ["kis".data], ["yaz".data], ["bahar".data],
    ["sonbahar".data]],
   [.season], [.year, .vehicleType],
   [.count, .sum_cost, .avg_cost], .count, []⟩

def cqTopEntities : CanonicalQuestion :=
  ⟨.TOP_ENTITIES,
   [["en".data, "cok".data], ["en".data, "fazla".data], ["en".data, "sik".data],
    ["top".data], ["ilk".data], ["en".data, "yuksek".data]],
   [], [], [.count, .sum_cost, .sum_quantity], .count, []⟩

def cqDistribution : CanonicalQuestion :=
  ⟨.DISTRIBUTION,
   [["dagilim".data], ["distribution".data], ["dagiliyor".data], ["oran".data],
    ["yuzde".data]],
   [], [], [.count, .sum_cost], .count, []⟩

def cqComparison : CanonicalQuestion :=
  ⟨.COMPARISON,
   [["karsilastir".data], ["compare".data], ["fark".data], ["ile".data], ["ve".data],
    ["arasinda".data]],
   [], [], [.count, .sum_cost, .avg_cost], .count, []⟩

/-- The static catalogue (spec §3: 12 fixed entries, loaded once,
immutable), listed in the priority order of spec §4.3. -/
def CATALOGUE : List CanonicalQuestion :=
  [cqMaintenanceHistory, cqFaultAnalysis, cqMaterialUsage, cqCostAnalysis,
   cqVehicleBased, cqCustomerBased, cqServiceBased, cqTimeSeries,
   cqSeasonal, cqTopEntities, cqDistribution, cqComparison]

/-- One trigger hits when all of its words occur in the token set
(co-occurrence, not strict adjacency — spec §4.3). -/
def triggerHit (tokens : List (List Char)) (trig : List (List Char)) : Bool :=
  trig.all (fun w => tokens.contains w)

/-- Number of triggers of `q` hit by the token set. -/
def hitCount (tokens : List (List Char)) (q : CanonicalQuestion) : ℕ :=
  (q.triggers.filter (triggerHit tokens)).length

/-- Trigger-overlap score (spec §4.3): the fraction of `q`'s triggers
present in the token set. -/
def scoreQ (tokens : List (List Char)) (q : CanonicalQuestion) : ℚ :=
  mkRat (hitCount tokens q) q.triggers.length

/-- Cheap feasibility check of a dimension against the EntityBag
(spec §4.3 tie-break): is the corresponding entity class non-empty?
`verbType` has no extracted entity class, so it is never satisfied. -/
def dimSatisfied (bag : EntityBag) : Dim → Bool
  | .vehicleId => !bag.vehicleIds.isEmpty
  | .customerId => !bag.customerIds.isEmpty
  | .serviceLocation => !bag.serviceIds.isEmpty
  | .vehicleType => !bag.vehicleTypes.isEmpty
  | .manufacturer => !bag.manufacturers.isEmpty
  | .materialName => !bag.materialKeywords.isEmpty
  | .faultCode => !bag.faultCodes.isEmpty
  | .year => !bag.years.isEmpty
  | .month => !bag.months.isEmpty
  | .season => !bag.seasons.isEmpty
  | .verbType => false

/-- How many of `q`'s required dimensions the EntityBag satisfies. -/
def feasCount (bag : EntityBag) (q : CanonicalQuestion) : ℕ :=
  (q.requiredDimensions.filter (dimSatisfied bag)).length

/-- Strictly-better relation between catalogue entries (spec §4.3): higher
score wins; among equal scores, better requiredDimensions feasibility wins;
among equal scores and feasibility, the earlier entry of the fixed priority
ordering wins. -/
def sb (tokens : List (List Char)) (bag : EntityBag)
    (p q : CanonicalQuestion) : Bool :=
  decide (scoreQ tokens q < scoreQ tokens p) ||
    (decide (scoreQ tokens p = scoreQ tokens q) &&
      decide (feasCount bag q < feasCount bag p)) ||
    (decide (scoreQ tokens p = scoreQ tokens q) &&
      decide (feasCount bag p = feasCount bag q) &&
      decide (priorityIndex p.qtype < priorityIndex q.qtype))

/-- The best entry of a candidate list under `sb` (the fold keeps the
incumbent unless a later entry is strictly better, so the result is the
unique `sb`-maximum whenever priorities are pairwise distinct). -/
def pickBest (tokens : List (List Char)) (bag : EntityBag) :
    List CanonicalQuestion → Option CanonicalQuestion
  | [] => none
  | q :: rest =>
    some (rest.foldl (fun best p => if sb tokens bag p best then p else best) q)

/-- MatchResult (spec §3): best entry, its score, optional runner-up. -/
structure MatchResult where
  primaryQuestion : CanonicalQuestion
  primaryScore : ℚ
  runnerUp : Option (CanonicalQuestion × ℚ)
deriving DecidableEq

/-- Intent Matcher (spec §4.3): score every catalogue entry, select the
best with the tie-break rule, and the best of the remaining entries as
runner-up. -/
def matchIntent (catalogue : List CanonicalQuestion)
    (tokens : List (List Char)) (bag : EntityBag) : Option MatchResult :=
  match pickBest tokens bag catalogue with
  | none => none
  | some w =>
    some ⟨w, scoreQ tokens w,
      (pickBest tokens bag (catalogue.erase w)).map fun r => (r, scoreQ tokens r)⟩

lemma sb_iff {t : List (List Char)} {b : EntityBag} {p q : CanonicalQuestion} :
    sb t b p q = true ↔
      scoreQ t q < scoreQ t p ∨
      (scoreQ t p = scoreQ t q ∧ feasCount b q < feasCount b p) ∨
      (scoreQ t p = scoreQ t q ∧ feasCount b p = feasCount b q ∧
        priorityIndex p.qtype < priorityIndex q.qtype) := by
  simp [sb, Bool.or_eq_true, Bool.and_eq_true, and_assoc, or_assoc]

/-- Among entries with distinct priorities, `sb` is total. -/
lemma sb_total {t : List (List Char)} {b : EntityBag} {p q : CanonicalQuestion}
    (hne : priorityIndex p.qtype ≠ priorityIndex q.qtype) :
    sb t b p q = true ∨ sb t b q p = true := by
  rw [sb_iff, sb_iff]
  rcases lt_trichotomy (scoreQ t p) (scoreQ t q) with hs | hs | hs
  · right; left; exact hs
  · rcases lt_trichotomy (feasCount b p) (feasCount b q) with hf | hf | hf
    · right; right; left; exact ⟨hs.symm, hf⟩
    · rcases Nat.lt_or_ge (priorityIndex p.qtype) (priorityIndex q.qtype) with hp | hp
      · left; right; right; exact ⟨hs, hf, hp⟩
      · right; right; right
        exact ⟨hs.symm, hf.symm, lt_of_le_of_ne hp (Ne.symm hne)⟩
    · left; right; left; exact ⟨hs, hf⟩
  · left; left; exact hs

lemma sb_trans {t : List (List Char)} {b : EntityBag} {p q r : CanonicalQuestion}
    (h1 : sb t b p q = true) (h2 : sb t b q r = true) : sb t b p r = true := by
  rw [sb_iff] at h1 h2 ⊢
  rcases h1 with h1 | ⟨e1, h1⟩ | ⟨e1, f1, h1⟩ <;>
    rcases h2 with h2 | ⟨e2, h2⟩ | ⟨e2, f2, h2⟩ <;>
      first
        | (left; linarith)
        | (right; left; exact ⟨by linarith, by omega⟩)
        | (right; right; exact ⟨by linarith, by omega, by omega⟩)

lemma sb_asymm {t : List (List Char)} {b : EntityBag} {p q : CanonicalQuestion}
    (h1 : sb t b p q = true) (h2 : sb t b q p = true) : False := by
  rw [sb_iff] at h1 h2
  rcases h1 with h1 | ⟨e1, h1⟩ | ⟨e1, f1, h1⟩ <;>
    rcases h2 with h2 | ⟨e2, h2⟩ | ⟨e2, f2, h2⟩ <;>
      first
        | linarith
        | omega

/-- Pairwise-distinct priorities, the hypothesis making the tie-break a
strict total order on a candidate list. -/
def DistinctPrio (l : List CanonicalQuestion) : Prop :=
  l.Pairwise fun a c => priorityIndex a.qtype ≠ priorityIndex c.qtype

lemma distinctPrio_symm :
    Symmetric fun a c : CanonicalQuestion =>
      priorityIndex a.qtype ≠ priorityIndex c.qtype :=
  fun _ _ h => h.symm

lemma foldl_pick_spec (t : List (List Char)) (b : EntityBag) :
    ∀ (l : List CanonicalQuestion) (acc : CanonicalQuestion),
      DistinctPrio (acc :: l) →
      (l.foldl (fun best p => if sb t b p best then p else best) acc = acc ∨
        l.foldl (fun best p => if sb t b p best then p else best) acc ∈ l) ∧
      ∀ x, (x = acc ∨ x ∈ l) →
        x = l.foldl (fun best p => if sb t b p best then p else best) acc ∨
        sb t b (l.foldl (fun best p => if sb t b p best then p else best) acc) x
          = true := by
  intro l
  induction l with
  | nil =>
    intro acc _
    exact ⟨Or.inl rfl, fun x hx => Or.inl (by simpa using hx)⟩
  | cons p rest ih =>
    intro acc hpw
    have hpw_pr : DistinctPrio (p :: rest) := hpw.of_cons
    have hpw_ar : DistinctPrio (acc :: rest) :=
      hpw.sublist (List.cons_sublist_cons.mpr (List.sublist_cons_self p rest))
    have hap : priorityIndex acc.qtype ≠ priorityIndex p.qtype :=
      (List.pairwise_cons.mp hpw).1 p (List.mem_cons_self p rest)
    rw [List.foldl_cons]
    by_cases hsb : sb t b p acc = true
    · rw [if_pos hsb]
      obtain ⟨hm, hdom⟩ := ih p hpw_pr
      constructor
      · refine Or.inr ?_
        rcases hm with h | h
        · rw [h]; exact List.mem_cons_self p rest
        · exact List.mem_cons_of_mem p h
      · intro x hx
        rcases hx with hx | hx
        · subst hx
          rcases hdom p (Or.inl rfl) with h | h
          · exact Or.inr (h ▸ hsb)
          · exact Or.inr (sb_trans h hsb)
        · rcases List.mem_cons.mp hx with hx | hx
          · exact hdom x (Or.inl hx)
          · exact hdom x (Or.inr hx)
    · rw [if_neg hsb]
      obtain ⟨hm, hdom⟩ := ih acc hpw_ar
      have hacc_p : sb t b acc p = true := by
        rcases sb_total (t := t) (b := b) hap with h | h
        · exact h
        · exact absurd h hsb
      constructor
      · rcases hm with h | h
        · exact Or.inl h
        · exact Or.inr (List.mem_cons_of_mem p h)
      · intro x hx
        rcases hx with hx | hx
        · exact hdom x (Or.inl hx)
        · rcases List.mem_cons.mp hx with hx | hx
          · subst hx
            rcases hdom acc (Or.inl rfl) with h | h
            · exact Or.inr (h ▸ hacc_p)
            · exact Or.inr (sb_trans h hacc_p)
          · exact hdom x (Or.inr hx)

/-- What it means to be the matcher's winner on a candidate list. -/
def IsBest (t : List (List Char)) (b : EntityBag)
    (l : List CanonicalQuestion) (m : CanonicalQuestion) : Prop :=
  m ∈ l ∧ ∀ x ∈ l, x = m ∨ sb t b m x = true

lemma pickBest_isBest {t : List (List Char)} {b : EntityBag}
    {l : List CanonicalQuestion} (hne : l ≠ []) (hpw : DistinctPrio l) :
    ∃ m, pickBest t b l = some m ∧ IsBest t b l m := by
  rcases l with _ | ⟨q, rest⟩
  · exact absurd rfl hne
  · obtain ⟨hm, hdom⟩ := foldl_pick_spec t b rest q hpw
    refine ⟨_, rfl, ?_, ?_⟩
    · rcases hm with h | h
      · rw [h]; exact List.mem_cons_self q rest
      · exact List.mem_cons_of_mem q h
    · intro x hx
      rcases List.mem_cons.mp hx with hx | hx
      · exact hdom x (Or.inl hx)
      · exact hdom x (Or.inr hx)

lemma isBest_unique {t : List (List Char)} {b : EntityBag}
    {l : List CanonicalQuestion} {m₁ m₂ : CanonicalQuestion}
    (h1 : IsBest t b l m₁) (h2 : IsBest t b l m₂) : m₁ = m₂ := by
  by_contra hne
  rcases h1.2 m₂ h2.1 with h | hb1
  · exact hne h.symm
  · rcases h2.2 m₁ h1.1 with h | hb2
    · exact hne h
    · exact sb_asymm hb1 hb2

lemma pickBest_perm {t : List (List Char)} {b : EntityBag}
    {l₁ l₂ : List CanonicalQuestion} (hperm : l₁.Perm l₂)
    (hpw : DistinctPrio l₂) : pickBest t b l₁ = pickBest t b l₂ := by
  rcases l₂ with _ | ⟨q, rest⟩
  · rw [List.perm_nil.mp hperm]
  · have hne₁ : l₁ ≠ [] := by
      intro h
      rw [h] at hperm
      exact absurd (List.nil_perm.mp hperm) (by simp)
    have hpw₁ : DistinctPrio l₁ :=
      (hperm.pairwise_iff (fun h => h.symm)).mpr hpw
    obtain ⟨m₁, he₁, hb₁⟩ := pickBest_isBest hne₁ hpw₁
    obtain ⟨m₂, he₂, hb₂⟩ :=
      pickBest_isBest (l := q :: rest) (by simp) hpw
    have hb₁' : IsBest t b (q :: rest) m₁ :=
      ⟨hperm.mem_iff.mp hb₁.1, fun x hx => hb₁.2 x (hperm.mem_iff.mpr hx)⟩
    rw [he₁, he₂, isBest_unique hb₁' hb₂]

/-- The catalogue's 12 entries all have distinct priorities. -/
lemma catalogue_distinctPrio : DistinctPrio CATALOGUE := by
  rw [DistinctPrio, CATALOGUE]
  decide

/-- Modelled from the spec (§4.1): the fixed stop-word list (conjunctions
and article-equivalent particles) stripped before trigger matching.  The
concrete list of `nlp_constants.py` is not in this excerpt; this
representative list suffices because no claim below depends on its
contents. -/
def STOP_WORDS : List (List Char) :=
  ["bir".data, "bu".data, "su".data, "mi".data, "mu".data, "acaba".data,
   "daha".data, "nedir".data, "neler".data]

/-- Split a normalized string into its space-separated words (the
accumulator holds the current word reversed). -/
def splitAux (cur : List Char) : List Char → List (List Char)
  | [] => if cur = [] then [] else [cur.reverse]
  | c :: rest =>
    if c = ' ' then
      if cur = [] then splitAux [] rest else cur.reverse :: splitAux [] rest
    else splitAux (c :: cur) rest

def splitWords (s : List Char) : List (List Char) := splitAux [] s

/-- NormalizedText (spec §3): the folded string, its full token sequence
(used by entity extraction, which must see stop-words), and the
stop-word-stripped tokens (used for trigger matching). -/
structure NormalizedText where
  raw : List Char
  allTokens : List (List Char)
  tokens : List (List Char)
deriving DecidableEq

/-- Normalizer (spec §4.1), building on the same Turkish folding as the
statement scripts (`normalizeFull`, which the source comments call
byte-compatible with the Python side). -/
def normalize (raw : List Char) : NormalizedText :=
  ⟨normalizeFull (some raw),
   splitWords (normalizeFull (some raw)),
   (splitWords (normalizeFull (some raw))).filter fun w => !STOP_WORDS.contains w⟩

/-- Numeric token as a natural number. -/
def tokenToNat? (w : List Char) : Option ℕ :=
  if w ≠ [] && w.all isDigitC then some (digitsToNat 10 digitVal w) else none

/-- A 4-digit token whose value lies in `[1990, currentYear + 1]`
(spec §4.2 rule 1). -/
def yearTok (cy : ℤ) (w : List Char) : Option ℤ :=
  match tokenToNat? w with
  | some n =>
    if w.length = 4 ∧ 1990 ≤ (n : ℤ) ∧ (n : ℤ) ≤ cy + 1 then some (n : ℤ) else none
  | none => none

/-- All years of the closed range `[a, b]`. -/
def rangeYears (a b : ℤ) : List ℤ :=
  (List.range (b - a + 1).toNat).map fun i => a + i

/-- Year extraction (spec §4.2 rule 1): single 4-digit years; two adjacent
year tokens (the normalized form of `YYYY-YYYY`) or `YYYY ve YYYY` produce
every year of the closed range.  This is the only consumer of the
injectable current-year bound. -/
def yearScan (cy : ℤ) : List (List Char) → List ℤ
  | [] => []
  | [w] =>
    match yearTok cy w with
    | some y => [y]
    | none => []
  | w :: w2 :: rest =>
    match yearTok cy w with
    | none => yearScan cy (w2 :: rest)
    | some y1 =>
      match yearTok cy w2 with
      | some y2 =>
        (if y1 ≤ y2 then rangeYears y1 y2 else [y1]) ++ yearScan cy (w2 :: rest)
      | none =>
        if w2 = "ve".data then
          match rest with
          | [] => [y1]
          | w3 :: _ =>
            match yearTok cy w3 with
            | some y2 =>
              (if y1 ≤ y2 then rangeYears y1 y2 else [y1]) ++ yearScan cy (w2 :: rest)
            | none => y1 :: yearScan cy (w2 :: rest)
        else y1 :: yearScan cy (w2 :: rest)

/-- Turkish month names (spec §4.2 rule 2), in normalized form. -/
def monthName (w : List Char) : Option ℕ :=
  if w = "ocak".data then some 1
  else if w = "subat".data then some 2
  else if w = "mart".data then some 3
  else if w = "nisan".data then some 4
  else if w = "mayis".data then some 5
  else if w = "haziran".data then some 6
  else if w = "temmuz".data then some 7
  else if w = "agustos".data then some 8
  else if w = "eylul".data then some 9
  else if w = "ekim".data then some 10
  else if w = "kasim".data then some 11
  else if w = "aralik".data then some 12
  else none

/-- Month extraction (spec §4.2 rule 2): explicit month names, or a
trailing ordinal (`"5. ay"`, normalized to the tokens `5 ay`) with values
outside 1–12 discarded silently. -/
def monthScan : List (List Char) → List ℕ
  | [] => []
  | w :: rest =>
    match monthName w with
    | some m => m :: monthScan rest
    | none =>
      match rest with
      | [] => []
      | w2 :: _ =>
        if w2 = "ay".data then
          match tokenToNat? w with
          | some n => if 1 ≤ n ∧ n ≤ 12 then n :: monthScan rest else monthScan rest
          | none => monthScan rest
        else monthScan rest

/-- Season keywords (spec §4.2 rule 3): direct keyword match only, no
inference from months. -/
def seasonTok (w : List Char) : Option Season :=
  if w = "kis".data then some .winter
  else if w = "yaz".data then some .summer
  else if w = "bahar".data || w = "ilkbahar".data then some .spring
  else if w = "sonbahar".data then some .autumn
  else none

def isNumTok (w : List Char) : Bool := !w.isEmpty && w.all isDigitC

/-- Was this token already claimed as a year (spec §4.2 rule 4: a 4-digit
number consumed as a year must not be retried as an identifier)? -/
def yearClaimed (years : List ℤ) (w : List Char) : Bool :=
  match tokenToNat? w with
  | some n => w.length == 4 && years.contains (n : ℤ)
  | none => false

def isLowerAlpha (c : Char) : Bool := 97 ≤ c.toNat && c.toNat ≤ 122

/-- A bare service code: a letter followed by one or more digits
(spec §4.2 rule 4, e.g. `r540`). -/
def isServiceCode (w : List Char) : Bool :=
  match w with
  | c :: rest => isLowerAlpha c && !rest.isEmpty && rest.all isDigitC
  | [] => false

/-- An identifier-looking numeric token: typical plate/customer-code
length, not already consumed as a year. -/
def isIdNum (years : List ℤ) (w : List Char) : Bool :=
  isNumTok w && 4 ≤ w.length && w.length ≤ 6 && !yearClaimed years w

/-- Identifier extraction (spec §4.2 rule 4): a numeric token is classified
by an adjacent domain keyword (`musteri…` → customer, `servis…` → service,
`plaka…` or no keyword → vehicle); a bare letter+digits token is a service
code.  Returns (vehicleIds, customerIds, serviceIds). -/
def idScan (years : List ℤ) :
    Option (List Char) → List (List Char) →
      List (List Char) × List (List Char) × List (List Char)
  | _, [] => ([], [], [])
  | prev, w :: rest =>
    match idScan years (some w) rest with
    | (vs, cs, ss) =>
      if isIdNum years w then
        if (match prev with
            | some pw => startsWith pw "musteri".data
            | none => false) ||
            (match rest with
            | w2 :: _ => startsWith w2 "musteri".data
            | [] => false) then (vs, w :: cs, ss)
        else if (match prev with
            | some pw => startsWith pw "servis".data
            | none => false) ||
            (match rest with
            | w2 :: _ => startsWith w2 "servis".data
            | [] => false) then (vs, cs, w :: ss)
        else (w :: vs, cs, ss)
      else if isServiceCode w then (vs, cs, w :: ss)
      else (vs, cs, ss)

/-- Vehicle-type dictionary match (spec §4.2 rule 5); `startsWith` admits
Turkish suffixes (`otobusler`, `kamyonlarda`, …). -/
def vtTok (w : List Char) : Option VehicleType :=
  if startsWith w "otobus".data then some .bus
  else if startsWith w "kamyon".data then some .truck
  else none

/-- Manufacturer dictionary match (spec §4.2 rule 5). -/
def manTok (w : List Char) : Option Manufacturer :=
  if w = "man".data then some .man
  else if startsWith w "mercedes".data then some .mercedes
  else none

def anyDigit (w : List Char) : Bool := w.any isDigitC
def anyAlpha (w : List Char) : Bool := w.any isLowerAlpha

/-- Fault-code pattern (spec §4.2 rule 6): alphanumeric, at least 6
characters, containing both letters and digits (e.g. `wd1a2000000zw`). -/
def isFaultCode (w : List Char) : Bool :=
  6 ≤ w.length && w.all (fun c => isDigitC c || isLowerAlpha c) &&
    anyDigit w && anyAlpha w

/-- Modelled from the spec (§4.2 rule 7): the curated material-term list of
`nlp_constants.py` is not in this excerpt; a representative list.  The
extractor returns the matched token text itself, not a canonical ID. -/
def MATERIAL_TERMS : List (List Char) :=
  ["yag".data, "filtre".data, "fren".data, "balata".data, "lastik".data,
   "aku".data, "antifriz".data, "fuchs".data]

def isMaterial (w : List Char) : Bool :=
  MATERIAL_TERMS.any fun t => startsWith w t

/-- Superlative second words of `en …` phrases (spec §4.2 rule 8). -/
def topSecond (w : List Char) : Bool :=
  w = "cok".data || w = "fazla".data || w = "sik".data || w = "yuksek".data

/-- Is a top-N signal present (`en çok` / `en fazla` / `en sık` /
`en yüksek` / `ilk` / `top`)? -/
def hasTopSig : List (List Char) → Bool
  | [] => false
  | [w] => w = "ilk".data || w = "top".data
  | w :: w2 :: rest =>
    w = "ilk".data || w = "top".data ||
      (w = "en".data && topSecond w2) || hasTopSig (w2 :: rest)

/-- A small integer token usable as an explicit top-N limit. -/
def smallNat? (w : List Char) : Option ℕ :=
  match tokenToNat? w with
  | some n => if w.length ≤ 3 then some n else none
  | none => none

/-- Explicit top-N limit: the integer adjacent to the superlative phrase
(`ilk 5`, `en çok 10`); left `none` when no explicit number follows
(spec §4.2 rule 8: extraction carries no business default). -/
def topLimitScan : List (List Char) → Option ℕ
  | [] => none
  | w :: rest =>
    if w = "ilk".data || w = "top".data then
      match rest with
      | [] => none
      | w2 :: _ =>
        match smallNat? w2 with
        | some n => some n
        | none => topLimitScan rest
    else if w = "en".data then
      match rest with
      | w2 :: w3 :: _ =>
        if topSecond w2 then
          match smallNat? w3 with
          | some n => some n
          | none => topLimitScan rest
        else topLimitScan rest
      | _ => none
    else topLimitScan rest

/-- Entity-like tokens for comparison detection (spec §4.2 rule 9):
dictionary values or numeric identifiers. -/
def entityLike (w : List Char) : Bool :=
  (manTok w).isSome || (vtTok w).isSome || isNumTok w

/-- Comparison pairs (spec §4.2 rule 9): two entity-like tokens joined by
`ve`/`ile`; a conjunction without two distinguishable entities records
nothing. -/
def compScan : List (List Char) → List (List Char)
  | w1 :: w2 :: w3 :: rest =>
    if (w2 = "ve".data || w2 = "ile".data) && entityLike w1 && entityLike w3 then
      w1 :: w3 :: compScan rest
    else compScan (w2 :: w3 :: rest)
  | _ => []

/-- Entity Extractor (spec §4.2) given the already-scanned years; every
sub-extractor sees the unstripped token sequence. -/
def extractWithYears (nt : NormalizedText) (years : List ℤ) : EntityBag :=
  { years := years
    months := (monthScan nt.allTokens).dedup
    seasons := (nt.allTokens.filterMap seasonTok).dedup
    vehicleIds := (idScan years none nt.allTokens).1.dedup
    customerIds := (idScan years none nt.allTokens).2.1.dedup
    serviceIds := (idScan years none nt.allTokens).2.2.dedup
    vehicleTypes := (nt.allTokens.filterMap vtTok).dedup
    manufacturers := (nt.allTokens.filterMap manTok).dedup
    faultCodes := (nt.allTokens.filter isFaultCode).dedup
    materialKeywords := (nt.allTokens.filter isMaterial).dedup
    hasTopSignal := hasTopSig nt.allTokens
    topLimit := topLimitScan nt.allTokens
    comparisonEntities := compScan nt.allTokens }

/-- Entity Extractor entry point: the current-year bound feeds only the
year scan. -/
def extract (nt : NormalizedText) (cy : ℤ) : EntityBag :=
  extractWithYears nt ((yearScan cy nt.allTokens).dedup)

/-- Modelled from the spec (§4.4): the minimum-confidence constant of the
refiner's top-N rule; the concrete value is not in this excerpt. -/
def MIN_CONFIDENCE : ℚ := mkRat 1 5

/-- Intent Refiner rules (spec §4.4, §9): an explicit ordered list of
(predicate, forced archetype) pairs, evaluated in order, first match wins:
a vehicle identifier together with a temporal/historical cue forces
MAINTENANCE_HISTORY; two or more comparison entities force COMPARISON; a
top-N signal with a low-confidence match forces TOP_ENTITIES. -/
def REFINER_RULES : List ((EntityBag → ℚ → Bool) × QType) :=
  [(fun b _ => !b.vehicleIds.isEmpty &&
      (!b.years.isEmpty || !b.months.isEmpty || !b.seasons.isEmpty),
    .MAINTENANCE_HISTORY),
   (fun b _ => 2 ≤ b.comparisonEntities.length, .COMPARISON),
   (fun b sc => b.hasTopSignal && decide (sc < MIN_CONFIDENCE), .TOP_ENTITIES)]

/-- Catalogue entry for an archetype (the catalogue holds each type
exactly once). -/
def questionOf (t : QType) : CanonicalQuestion :=
  (CATALOGUE.find? fun q => q.qtype == t).getD cqMaintenanceHistory

/-- Intent Refiner (spec §4.4): the first matching override rule wins; if
no rule fires, the matcher's primary choice stands. -/
def refine (mr : MatchResult) (bag : EntityBag) : CanonicalQuestion :=
  match REFINER_RULES.find? fun r => r.1 bag mr.primaryScore with
  | some r => questionOf r.2
  | none => mr.primaryQuestion

/-- An absolute instant (UTC, minute precision is enough for the plan's
year/month boundaries). -/
structure Instant where
  year : ℤ
  month : ℕ
  day : ℕ
  hour : ℕ
  minute : ℕ
deriving DecidableEq

/-- January 1, 00:00 of the given year. -/
def jan1 (y : ℤ) : Instant := ⟨y, 1, 1, 0, 0⟩

/-- First day, 00:00 of the given month. -/
def monthStart (y : ℤ) (m : ℕ) : Instant := ⟨y, m, 1, 0, 0⟩

/-- Time range: inclusive start, exclusive end (spec §3). -/
structure TimeRange where
  startI : Instant
  endEx : Instant
deriving DecidableEq

structure SortSpec where
  key : Metric
  descending : Bool
deriving DecidableEq

/-- QueryPlan (spec §3). -/
structure QueryPlan where
  groupBy : List Dim
  metrics : List Metric
  filters : List (FKey × FilterVal)
  timeRange : Option TimeRange
  sort : SortSpec
  limit : Option ℕ
deriving DecidableEq

/-- Schema Registry (spec §3, README table): logical dimension and metric
names mapped to storage paths / aggregation expressions.  The plan itself
is keyed by logical names; the translation to storage paths belongs to the
downstream executor (out of scope), so the registry is carried but not
consulted by the synthesizer. -/
structure SchemaRegistry where
  dimensions : List (Dim × List Char)
  metrics : List (Metric × List Char)
deriving DecidableEq

def DEFAULT_SCHEMA : SchemaRegistry :=
  ⟨[(.vehicleId, "actor.account.name".data),
    (.customerId, "context.contextActivities.grouping.customer".data),
    (.serviceLocation, "context.contextActivities.grouping.service-location".data),
    (.vehicleType, "context.extensions.vehicleType".data),
    (.manufacturer, "context.extensions.manufacturer".data),
    (.materialName, "object.definition.name.tr-TR".data),
    (.faultCode, "result.extensions.faultCode".data),
    (.year, "$year(operationDate)".data),
    (.month, "$month(operationDate)".data),
    (.season, "$switch(month)".data),
    (.verbType, "verb.id".data)],
   [(.count, "$sum(1)".data),
    (.sum_quantity, "$sum(materialQuantity)".data),
    (.sum_cost, "$sum(materialCost)".data),
    (.avg_cost, "$avg(materialCost)".data),
    (.avg_km, "$avg(odometerReading)".data)]⟩

def seasonMonths : Season → List ℕ
  | .winter => [12, 1, 2]
  | .spring => [3, 4, 5]
  | .summer => [6, 7, 8]
  | .autumn => [9, 10, 11]

/-- The months that would narrow the range: explicit months plus the
months of any extracted seasons. -/
def narrowMonths (bag : EntityBag) : List ℕ :=
  (bag.months ++ bag.seasons.flatMap seasonMonths).dedup

def listMinI (y : ℤ) (ys : List ℤ) : ℤ := ys.foldl min y
def listMaxI (y : ℤ) (ys : List ℤ) : ℤ := ys.foldl max y
def listMinN (n : ℕ) (ns : List ℕ) : ℕ := ns.foldl min n
def listMaxN (n : ℕ) (ns : List ℕ) : ℕ := ns.foldl max n

/-- Time-range synthesis (spec §4.5): empty years give no range; otherwise
the closed year span as absolute instants — Jan 1 00:00 of the minimum
year (inclusive) to Jan 1 00:00 of the maximum year plus one (exclusive).
Month/season entities narrow the range only when exactly one year is
present (with several years they stay plain filters); the narrowing keeps
the single year and restricts to the span of the mentioned months. -/
def synthTimeRange (bag : EntityBag) : Option TimeRange :=
  match bag.years with
  | [] => none
  | y :: ys =>
    if ys = [] ∧ narrowMonths bag ≠ [] then
      match narrowMonths bag with
      | [] => some ⟨jan1 y, jan1 (y + 1)⟩
      | m :: ms =>
        some ⟨monthStart y (listMinN m ms),
          if listMaxN m ms = 12 then jan1 (y + 1)
          else monthStart y (listMaxN m ms + 1)⟩
    else some ⟨jan1 (listMinI y ys), jan1 (listMaxI y ys + 1)⟩

/-- Does month/season narrowing apply (exactly one year, and a month or
season entity present)? -/
def narrowApplies (bag : EntityBag) : Bool :=
  (bag.years.length == 1) && !(narrowMonths bag).isEmpty

/-- An equality filter for one value, an in-set filter for several
(spec §4.5). -/
def strFilter (d : Dim) : List (List Char) → List (FKey × FilterVal)
  | [] => []
  | [v] => [(.dim d, .strEq v)]
  | vs => [(.dim d, .strIn vs)]

def natFilter (d : Dim) : List ℕ → List (FKey × FilterVal)
  | [] => []
  | [v] => [(.dim d, .natEq v)]
  | vs => [(.dim d, .natIn vs)]

def vtFilter : List VehicleType → List (FKey × FilterVal)
  | [] => []
  | [v] => [(.dim .vehicleType, .vtEq v)]
  | vs => [(.dim .vehicleType, .vtIn vs)]

def manFilter : List Manufacturer → List (FKey × FilterVal)
  | [] => []
  | [v] => [(.dim .manufacturer, .manEq v)]
  | vs => [(.dim .manufacturer, .manIn vs)]

def seasonFilter : List Season → List (FKey × FilterVal)
  | [] => []
  | [v] => [(.dim .season, .seasonEq v)]
  | vs => [(.dim .season, .seasonIn vs)]

/-- Filter construction (spec §4.5): the archetype's default filters, one
filter per non-empty entity class that maps to an equality/set dimension;
months and seasons appear as filters only when they were not used to
narrow the time range. -/
def synthFilters (q : CanonicalQuestion) (bag : EntityBag) :
    List (FKey × FilterVal) :=
  q.defaultFilters ++
    strFilter .vehicleId bag.vehicleIds ++
    strFilter .customerId bag.customerIds ++
    strFilter .serviceLocation bag.serviceIds ++
    vtFilter bag.vehicleTypes ++
    manFilter bag.manufacturers ++
    strFilter .faultCode bag.faultCodes ++
    strFilter .materialName bag.materialKeywords ++
    (if narrowApplies bag then []
     else natFilter .month bag.months ++ seasonFilter bag.seasons)

/-- Outcomes of one analysis (spec §7): every failure condition is a typed
outcome, never an exception. -/
inductive Outcome where
  | emptyQuestion
  | incompletePlan (missing : List Dim)
  | planned (result : MatchResult) (plan : QueryPlan)
deriving DecidableEq

/-- Query Plan Synthesizer (spec §4.5): required dimensions always
grouped; an optional dimension only when its entity class is non-empty;
metrics copied verbatim; filters as above; a top-N signal sets the limit
(explicit `topLimit`, default 10 applied only here) and, like a
comparison, forces a descending sort by the first listed metric.  A
required dimension with no satisfying entity yields `IncompletePlan`
naming the missing dimensions (spec §4.5 failure mode). -/
def synthesize (mr : MatchResult) (q : CanonicalQuestion) (bag : EntityBag)
    (schema : SchemaRegistry) : Outcome :=
  if (q.requiredDimensions.filter fun d => !dimSatisfied bag d) ≠ [] then
    .incompletePlan (q.requiredDimensions.filter fun d => !dimSatisfied bag d)
  else
    .planned mr
      { groupBy := q.requiredDimensions ++ q.optionalDimensions.filter (dimSatisfied bag)
        metrics := q.metrics
        filters := synthFilters q bag
        timeRange := synthTimeRange bag
        sort :=
          if bag.hasTopSignal || 2 ≤ bag.comparisonEntities.length then
            ⟨q.metrics.headD .count, true⟩
          else ⟨q.defaultSort, true⟩
        limit := if bag.hasTopSignal then some (bag.topLimit.getD 10) else none }

/-- The whole pipeline (spec §2 control flow): normalize, short-circuit an
empty token list to `EmptyQuestion`, extract entities, match, refine,
synthesize.  `currentYear` is the injectable current-year bound of the
year validation. -/
def analyze (raw : List Char) (currentYear : ℤ) : Outcome :=
  if (normalize raw).tokens = [] then .emptyQuestion
  else
    match matchIntent CATALOGUE (normalize raw).tokens
        (extract (normalize raw) currentYear) with
    | none => .emptyQuestion
    | some mr =>
      synthesize mr
        (refine mr (extract (normalize raw) currentYear))
        (extract (normalize raw) currentYear) DEFAULT_SCHEMA

lemma char_eq_of_toNat {a b : Char} (h : a.toNat = b.toNat) : a = b :=
  Char.eq_of_val_eq (UInt32.toNat.inj h)

lemma jsWs_toNat {c : Char} (h : jsWs c = true) :
    (9 ≤ c.toNat ∧ c.toNat ≤ 13) ∨ c.toNat = 32 ∨ c.toNat = 0xa0 ∨
      c.toNat = 0x1680 ∨ (0x2000 ≤ c.toNat ∧ c.toNat ≤ 0x200a) ∨
      c.toNat = 0x2028 ∨ c.toNat = 0x2029 ∨ c.toNat = 0x202f ∨
      c.toNat = 0x205f ∨ c.toNat = 0x3000 ∨ c.toNat = 0xfeff := by
  rw [jsWs] at h
  simp only [Bool.or_eq_true, Bool.and_eq_true, decide_eq_true_eq, beq_iff_eq] at h
  tauto

lemma jsLowerChar_ws {c : Char} (h : jsWs c = true) : jsLowerChar c = [c] := by
  have hn := jsWs_toNat h
  rw [jsLowerChar, if_neg (by omega),
    if_neg (fun hc => by rw [hc] at h; revert h; decide),
    if_neg (fun hc => by rw [hc] at h; revert h; decide),
    if_neg (fun hc => by rw [hc] at h; revert h; decide),
    if_neg (fun hc => by rw [hc] at h; revert h; decide),
    if_neg (fun hc => by rw [hc] at h; revert h; decide),
    if_neg (fun hc => by rw [hc] at h; revert h; decide),
    if_neg (fun hc => by rw [hc] at h; revert h; decide)]

lemma jsToLower_ws {s : List Char} (h : s.all jsWs = true) : jsToLower s = s := by
  induction s with
  | nil => rfl
  | cons c rest ih =>
    rw [List.all_cons, Bool.and_eq_true] at h
    rw [jsToLower, List.flatMap_cons, jsLowerChar_ws h.1]
    rw [jsToLower] at ih
    rw [ih h.2]
    rfl

lemma replChar_ws {a b : Char} (ha : jsWs a = false) {s : List Char}
    (h : s.all jsWs = true) : replChar a b s = s := by
  rw [replChar]
  refine (List.map_congr_left fun c hc => ?_).trans (List.map_id s)
  have hcw : jsWs c = true := by rw [List.all_eq_true] at h; exact h c hc
  rw [if_neg (fun he => by rw [he] at hcw; rw [hcw] at ha; exact absurd ha (by simp))]
  rfl

lemma replaceTurkish_ws {s : List Char} (h : s.all jsWs = true) :
    replaceTurkish s = s := by
  rw [replaceTurkish]
  rw [replChar_ws (by decide) h, replChar_ws (by decide) h,
    replChar_ws (by decide) h, replChar_ws (by decide) h,
    replChar_ws (by decide) h, replChar_ws (by decide) h,
    replChar_ws (by decide) h, replChar_ws (by decide) h,
    replChar_ws (by decide) h, replChar_ws (by decide) h,
    replChar_ws (by decide) h, replChar_ws (by decide) h]

lemma toSpaces_ws {s : List Char} (h : s.all jsWs = true) :
    (toSpaces s).all (· == ' ') = true := by
  rw [toSpaces, List.all_map, List.all_eq_true]
  intro c hc
  have hcw : jsWs c = true := by rw [List.all_eq_true] at h; exact h c hc
  simp only [Function.comp_apply]
  by_cases hk : keepChar c = true
  · have hc32 : c.toNat = 32 := by
      have := jsWs_toNat hcw
      rw [keepChar] at hk
      simp only [Bool.or_eq_true, Bool.and_eq_true, decide_eq_true_eq, beq_iff_eq] at hk
      omega
    have : c = ' ' := char_eq_of_toNat (by rw [hc32]; rfl)
    rw [if_pos hk, this]
    rfl
  · rw [if_neg (by simpa using hk)]
    rfl

lemma collapseAux_true_allspace {s : List Char} (h : s.all (· == ' ') = true) :
    collapseAux true s = [] := by
  induction s with
  | nil => rfl
  | cons c rest ih =>
    rw [List.all_cons, Bool.and_eq_true] at h
    have hc : c = ' ' := by simpa using h.1
    rw [collapseAux, if_pos hc, if_pos rfl]
    exact ih h.2

lemma trim_collapse_allspace {s : List Char} (h : s.all (· == ' ') = true) :
    trimSpaces (collapseSpaces s) = [] := by
  cases s with
  | nil => rfl
  | cons c rest =>
    rw [List.all_cons, Bool.and_eq_true] at h
    have hc : c = ' ' := by simpa using h.1
    rw [collapseSpaces, collapseAux, if_pos hc, if_neg (by simp),
      collapseAux_true_allspace h.2]
    decide

/-- A whitespace-only (or empty) input normalizes to the empty string. -/
lemma normalizeFull_ws {raw : List Char} (h : raw.all jsWs = true) :
    normalizeFull (some raw) = [] := by
  rw [normalizeFull]
  by_cases hr : raw = []
  · rw [if_pos hr]
  · rw [if_neg hr, jsToLower_ws h, replaceTurkish_ws h]
    exact trim_collapse_allspace (toSpaces_ws h)

/-- Claim C5.  Every empty or whitespace-only input produces an empty
token list and the dedicated `EmptyQuestion` outcome: the pipeline
short-circuits before entity extraction and plan synthesis, and the model
being a total function witnesses that no exception escapes the module
boundary. -/
theorem analyze_empty_question (raw : List Char) (cy : ℤ)
    (h : raw.all jsWs = true) :
    (normalize raw).tokens = [] ∧ (normalize raw).allTokens = [] ∧
    analyze raw cy = .emptyQuestion := by
  have hn : normalizeFull (some raw) = [] := normalizeFull_ws h
  have htok : (normalize raw).tokens = [] := by
    rw [normalize, hn]
    rfl
  refine ⟨htok, by rw [normalize, hn]; rfl, ?_⟩
  rw [analyze, if_pos htok]

/-- Claim C5 witness: the empty string and a whitespace-only string both
short-circuit to `EmptyQuestion` through the theorem. -/
theorem analyze_empty_question_witness :
    (" \t ".data).all jsWs = true ∧
    (normalize " \t ".data).tokens = [] ∧
    analyze " \t ".data 2025 = .emptyQuestion ∧
    analyze "".data 2025 = .emptyQuestion :=
  ⟨by decide, (analyze_empty_question " \t ".data 2025 (by decide)).1,
   (analyze_empty_question " \t ".data 2025 (by decide)).2.2,
   (analyze_empty_question "".data 2025 (by decide)).2.2⟩

/-- Claim C7.  The pipeline is deterministic: `analyze` is a pure function
of the input string and the injected current-year bound (repeated calls
are definitionally equal — the model has no other state), and the bound
influences the output only through year-range validation: whenever two
bounds validate the same year set for a text, the outputs are identical. -/
theorem analyze_deterministic :
    (∀ (t : List Char) (y : ℤ), analyze t y = analyze t y) ∧
    (∀ (t : List Char) (y₁ y₂ : ℤ),
      yearScan y₁ (normalize t).allTokens = yearScan y₂ (normalize t).allTokens →
      analyze t y₁ = analyze t y₂) := by
  refine ⟨fun t y => rfl, fun t y₁ y₂ h => ?_⟩
  simp only [analyze, extract]
  rw [h]

/-- Claim C7 witness: two different current-year bounds that validate the
same (empty) year set give identical outputs on a concrete question. -/
theorem analyze_deterministic_witness :
    yearScan 2024 (normalize "en cok kullanilan malzemeler".data).allTokens =
      yearScan 2030 (normalize "en cok kullanilan malzemeler".data).allTokens ∧
    analyze "en cok kullanilan malzemeler".data 2024 =
      analyze "en cok kullanilan malzemeler".data 2030 :=
  ⟨by decide, analyze_deterministic.2 _ 2024 2030 (by decide)⟩

/-- Claim C3 (counterexample).  With a non-empty years set {2023} but a
month entity {3} also present, the synthesizer narrows the range to
March 2023 instead of the full year span, so "every question with
non-empty years gets the closed year span" fails: the spec itself narrows
by month/season when exactly one year is present. -/
theorem timeRange_counterexample :
    ({ emptyBag with years := [2023], months := [3] } : EntityBag).years ≠ [] ∧
    synthTimeRange { emptyBag with years := [2023], months := [3] } =
      some ⟨monthStart 2023 3, monthStart 2023 4⟩ ∧
    synthTimeRange { emptyBag with years := [2023], months := [3] } ≠
      some ⟨jan1 2023, jan1 2024⟩ := by
  refine ⟨by decide, by decide, by decide⟩

/-- Claim C3 (amended).  For every EntityBag whose years set is non-empty
and to which no month/season narrowing applies (several years present, or
no month/season entity), the synthesizer's time range is the closed year
span as absolute instants: January 1 00:00 of the minimum year inclusive
to January 1 00:00 of the maximum year plus one exclusive; and every
`planned` outcome of `synthesize` carries exactly this range.  In
particular years = {2023} yields 2023-01-01T00:00 inclusive to
2024-01-01T00:00 exclusive (see the witness). -/
theorem timeRange_year_span :
    (∀ (bag : EntityBag) (y : ℤ) (ys : List ℤ), bag.years = y :: ys →
      (ys ≠ [] ∨ narrowMonths bag = []) →
      synthTimeRange bag = some ⟨jan1 (listMinI y ys), jan1 (listMaxI y ys + 1)⟩) ∧
    (∀ (mr : MatchResult) (q : CanonicalQuestion) (bag : EntityBag)
        (schema : SchemaRegistry) (mr' : MatchResult) (plan : QueryPlan),
      synthesize mr q bag schema = .planned mr' plan →
      plan.timeRange = synthTimeRange bag) := by
  constructor
  · intro bag y ys hy h
    unfold synthTimeRange
    rw [hy]
    have hcond : ¬(ys = [] ∧ narrowMonths bag ≠ []) := by
      rintro ⟨h1, h2⟩
      rcases h with h | h
      · exact h h1
      · exact h2 h
    dsimp only
    rw [if_neg hcond]
  · intro mr q bag schema mr' plan h
    rw [synthesize] at h
    by_cases hm : (q.requiredDimensions.filter fun d => !dimSatisfied bag d) ≠ []
    · rw [if_pos hm] at h
      exact absurd h (by simp)
    · rw [if_neg hm] at h
      have := (Outcome.planned.injEq ..).mp h
      rw [← this.2]

/-- Claim C3 witness: years = {2023} with no months/seasons yields the
range 2023-01-01T00:00 (inclusive) to 2024-01-01T00:00 (exclusive). -/
theorem timeRange_year_span_witness :
    synthTimeRange { emptyBag with years := [2023] } =
      some ⟨jan1 2023, jan1 2024⟩ :=
  timeRange_year_span.1 { emptyBag with years := [2023] } 2023 [] rfl (Or.inr rfl)

/-- Claim C4.  The matcher's winner is independent of catalogue iteration
order: on any permutation of the catalogue it returns the same
MatchResult; and the winner is the unique entry that dominates every other
entry under the tie-break order `sb` (higher trigger-overlap score first,
then better satisfied requiredDimensions against the EntityBag, then the
earlier position in the fixed priority ordering). -/
theorem matcher_tiebreak (tokens : List (List Char)) (bag : EntityBag)
    (l : List CanonicalQuestion) (hperm : l.Perm CATALOGUE) :
    matchIntent l tokens bag = matchIntent CATALOGUE tokens bag ∧
    ∃ mr, matchIntent CATALOGUE tokens bag = some mr ∧
      mr.primaryQuestion ∈ CATALOGUE ∧
      ∀ p ∈ CATALOGUE, p = mr.primaryQuestion ∨
        sb tokens bag mr.primaryQuestion p = true := by
  have hpb := pickBest_perm (t := tokens) (b := bag) hperm catalogue_distinctPrio
  obtain ⟨m, hm, hbest⟩ :=
    pickBest_isBest (t := tokens) (b := bag) (l := CATALOGUE)
      (by rw [CATALOGUE]; simp) catalogue_distinctPrio
  constructor
  · rw [matchIntent, matchIntent, hpb, hm]
    have her : pickBest tokens bag (l.erase m) =
        pickBest tokens bag (CATALOGUE.erase m) :=
      pickBest_perm (hperm.erase m)
        (catalogue_distinctPrio.sublist (CATALOGUE.erase_sublist m))
    dsimp only
    rw [her]
  · refine ⟨⟨m, scoreQ tokens m,
      (pickBest tokens bag (CATALOGUE.erase m)).map fun r => (r, scoreQ tokens r)⟩,
      ?_, hbest.1, hbest.2⟩
    rw [matchIntent, hm]

/-- Claim C4 witness: the reversed catalogue is a permutation and the
matcher returns the same result on it. -/
theorem matcher_tiebreak_witness :
    CATALOGUE.reverse.Perm CATALOGUE ∧
    matchIntent CATALOGUE.reverse ["malzeme".data] emptyBag =
      matchIntent CATALOGUE ["malzeme".data] emptyBag :=
  ⟨List.reverse_perm CATALOGUE,
   (matcher_tiebreak ["malzeme".data] emptyBag CATALOGUE.reverse
     (List.reverse_perm CATALOGUE)).1⟩

/-- Claim C6.  The matcher is total: even when every archetype's trigger
overlap is zero (no trigger of any entry hits the token set), it still
returns a MatchResult whose `primaryScore` is 0 and whose
`primaryQuestion` is the top-ranked candidate of the tie-break order; it
never fails (the model returns `some` on the non-empty catalogue), and
no confidence threshold is applied here — that is the caller's policy. -/
theorem matcher_total_on_zero (tokens : List (List Char)) (bag : EntityBag)
    (hz : ∀ q ∈ CATALOGUE, hitCount tokens q = 0) :
    ∃ mr, matchIntent CATALOGUE tokens bag = some mr ∧
      mr.primaryScore = 0 ∧
      mr.primaryQuestion ∈ CATALOGUE ∧
      ∀ p ∈ CATALOGUE, p = mr.primaryQuestion ∨
        sb tokens bag mr.primaryQuestion p = true := by
  obtain ⟨m, hm, hbest⟩ :=
    pickBest_isBest (t := tokens) (b := bag) (l := CATALOGUE)
      (by rw [CATALOGUE]; simp) catalogue_distinctPrio
  refine ⟨⟨m, scoreQ tokens m,
    (pickBest tokens bag (CATALOGUE.erase m)).map fun r => (r, scoreQ tokens r)⟩,
    by rw [matchIntent, hm], ?_, hbest.1, hbest.2⟩
  show scoreQ tokens m = 0
  rw [scoreQ, hz m hbest.1]
  simp

/-- Claim C6 witness: a token set hitting no trigger of any catalogue
entry still produces a zero-score MatchResult through the theorem. -/
theorem matcher_total_on_zero_witness :
    (∀ q ∈ CATALOGUE, hitCount ["zzzz".data] q = 0) ∧
    ∃ mr, matchIntent CATALOGUE ["zzzz".data] emptyBag = some mr ∧
      mr.primaryScore = 0 ∧
      mr.primaryQuestion ∈ CATALOGUE ∧
      ∀ p ∈ CATALOGUE, p = mr.primaryQuestion ∨
        sb ["zzzz".data] emptyBag mr.primaryQuestion p = true :=
  ⟨by decide, matcher_total_on_zero ["zzzz".data] emptyBag (by decide)⟩

end Codex
